import Mathlib

/-!
Verification of the resilient inter-service HTTP client
(`src/shared/http_client.py`) and of the maintenance-request priority scorer
(`src/maintenance/enhanced_model.py`) of the campus-services repository.

The Python code is shallowly embedded: every numeric quantity that the source
computes with floats only ever takes exact decimal values, so it is modelled
over `ℚ`; text is modelled as `List Char`; the wall clock consumed by
`time.time()` and `datetime.now()` is passed in as an explicit parameter.
-/

namespace HttpClient

/-- The three circuit-breaker states of `CircuitBreaker.state`
(the Python strings "closed", "open", "half_open"). -/
inductive CBState
  | closed
  | opened
  | halfOpen
deriving DecidableEq, Repr

/-- State of one `CircuitBreaker` object (`http_client.py`, lines 13-51).
`last_failure_time` is `None` until the first failure, hence `Option ℚ`. -/
structure CircuitBreaker where
  failure_threshold : ℕ
  timeout : ℚ
  failure_count : ℕ
  last_failure_time : Option ℚ
  state : CBState
deriving DecidableEq, Repr

/-- `CircuitBreaker.__init__` with the default arguments
(`failure_threshold=5`, `timeout=60`). -/
def CircuitBreaker.init : CircuitBreaker :=
  { failure_threshold := 5
    timeout := 60
    failure_count := 0
    last_failure_time := none
    state := .closed }

/-- `CircuitBreaker.on_success`: reset the count and close the breaker. -/
def CircuitBreaker.on_success (cb : CircuitBreaker) : CircuitBreaker :=
  { cb with failure_count := 0, state := .closed }

/-- `CircuitBreaker.on_failure` at wall-clock time `now`: increment the count,
record the failure time, and open the breaker when the threshold is reached. -/
def CircuitBreaker.on_failure (cb : CircuitBreaker) (now : ℚ) : CircuitBreaker :=
  let cb' : CircuitBreaker :=
    { cb with failure_count := cb.failure_count + 1, last_failure_time := some now }
  if cb'.failure_threshold ≤ cb'.failure_count then { cb' with state := .opened } else cb'

/-- The leading gate of `CircuitBreaker.call` (lines 25-29): when the breaker is
open, either move to half-open (elapsed time strictly above `timeout`) or reject
the call (`none`, the "Circuit breaker is OPEN" exception).  In the source an
open breaker always has `last_failure_time` set (only `on_failure` opens it, and
it records the time first), so the `getD` default is never consulted on
reachable states; it makes the comparison total and yields rejection. -/
def CircuitBreaker.openGate (cb : CircuitBreaker) (now : ℚ) : Option CircuitBreaker :=
  if cb.state = .opened then
    if cb.timeout < now - (cb.last_failure_time.getD now) then
      some { cb with state := .halfOpen }
    else
      none
  else
    some cb

/-- Outcome of one `CircuitBreaker.call`: rejected without any attempt
(circuit-open error), or attempted with the wrapped function succeeding or
raising. -/
inductive CallR
  | rejected
  | succeeded
  | failed
deriving DecidableEq, Repr

/-- Whether a call outcome corresponds to a network attempt having been made:
a rejected call raises before `func` is invoked. -/
def CallR.attempted : CallR → Bool
  | .rejected => false
  | _ => true

/-- `CircuitBreaker.call` at time `now`, where `ok` tells whether the wrapped
function call succeeds or raises (lines 23-37 of the source): gate, then run
`func` and report `on_success` / `on_failure`. -/
def CircuitBreaker.call (cb : CircuitBreaker) (now : ℚ) (ok : Bool) :
    CallR × CircuitBreaker :=
  match cb.openGate now with
  | none => (.rejected, cb)
  | some cb' => if ok then (.succeeded, cb'.on_success) else (.failed, cb'.on_failure now)

/-- Run a sequence of calls against one breaker; each event is a pair of the
wall-clock time of the call and whether the wrapped function would succeed. -/
def runCalls (cb : CircuitBreaker) (evs : List (ℚ × Bool)) : CircuitBreaker :=
  evs.foldl (fun s e => (s.call e.1 e.2).2) cb

/-- Result of one underlying `requests.request` attempt: an HTTP status code,
or a transport-level exception (connection refused, timeout, ...). -/
inductive AttemptResult
  | status (code : ℕ)
  | transportError
deriving DecidableEq

/-- The exceptions `_make_request` can propagate: an `HTTPError` carrying a
response status (raised by `raise_for_status`), a transport-level
`RequestException` without a response, or the `TypeError` of `raise None`
(reached only when the loop body never ran, i.e. `max_retries = 0`). -/
inductive PyError
  | httpError (code : ℕ)
  | transport
  | noneTypeError
deriving DecidableEq

/-- The spec's error taxonomy maps 5xx statuses and transport failures,
surfaced after retry exhaustion, to `ServiceError`. -/
def isServiceError : PyError → Bool
  | .httpError c => 500 ≤ c
  | .transport => true
  | .noneTypeError => false

/-- The response status attached to an exception (`e.response` in the source;
`none` plays the role of Python's missing/None response). -/
def excResponseCode : PyError → Option ℕ
  | .httpError c => some c
  | _ => none

/-- The caught-exception guard `hasattr(e, 'response') and e.response is not
None and 400 <= e.response.status_code < 500` of `_make_request`. -/
def is4xxException (e : PyError) : Bool :=
  match excResponseCode e with
  | some r => decide (400 ≤ r ∧ r < 500)
  | none => false

/-- The retry loop of `HTTPClient._make_request` (lines 76-110). Arguments:
remaining loop iterations, current `attempt` index, and `last_exception`.
Returns the Python-level outcome (returned status or raised exception), the
list of back-off sleep durations in order, and the number of attempts made.
Per the source: a status below 500 (success or 4xx client error) is returned
as-is; `raise_for_status` turns a status of 500 or more into an `HTTPError`,
which is caught; the caught-exception guard re-raises immediately when the
exception carries a 4xx response (unreachable for `HTTPError`s made here);
otherwise the loop sleeps `backoff * 2 ^ attempt` whenever attempts remain. -/
def makeRequestAux (backoff : ℚ) (resp : ℕ → AttemptResult) :
    ℕ → ℕ → Option PyError → (Except PyError ℕ) × List ℚ × ℕ
  | 0, _, lastExc =>
    match lastExc with
    | some e => (.error e, [], 0)
    | none => (.error .noneTypeError, [], 0)
  | remaining + 1, attempt, _ =>
    match resp attempt with
    | .status c =>
      if 500 ≤ c then
        if is4xxException (.httpError c) then
          (.error (.httpError c), [], 1)
        else if 0 < remaining then
          let rest := makeRequestAux backoff resp remaining (attempt + 1) (some (.httpError c))
          (rest.1, backoff * 2 ^ attempt :: rest.2.1, rest.2.2 + 1)
        else
          let rest := makeRequestAux backoff resp remaining (attempt + 1) (some (.httpError c))
          (rest.1, rest.2.1, rest.2.2 + 1)
      else
        (.ok c, [], 1)
    | .transportError =>
      if is4xxException .transport then
        (.error .transport, [], 1)
      else if 0 < remaining then
        let rest := makeRequestAux backoff resp remaining (attempt + 1) (some .transport)
        (rest.1, backoff * 2 ^ attempt :: rest.2.1, rest.2.2 + 1)
      else
        let rest := makeRequestAux backoff resp remaining (attempt + 1) (some .transport)
        (rest.1, rest.2.1, rest.2.2 + 1)

/-- `HTTPClient._make_request`: run the retry loop from attempt 0 with no
previous exception, for `maxRetries` iterations (`range(self.max_retries)`). -/
def makeRequest (maxRetries : ℕ) (backoff : ℚ) (resp : ℕ → AttemptResult) :
    (Except PyError ℕ) × List ℚ × ℕ :=
  makeRequestAux backoff resp maxRetries 0 none

/-- The configuration constants consumed by `HTTPClient.__init__`
(`shared/config.py`), at their documented defaults. -/
structure ClientCfg where
  REQUEST_RETRY_ATTEMPTS : ℤ
  REQUEST_TIMEOUT : ℤ
  REQUEST_RETRY_BACKOFF : ℚ
deriving DecidableEq

/-- The default configuration: `REQUEST_RETRY_ATTEMPTS=3`, `REQUEST_TIMEOUT=10`,
`REQUEST_RETRY_BACKOFF=1.0` (the env-var fallbacks in `shared/config.py`). -/
def defaultCfg : ClientCfg :=
  { REQUEST_RETRY_ATTEMPTS := 3, REQUEST_TIMEOUT := 10, REQUEST_RETRY_BACKOFF := 1 }

/-- Python's `x or d` on an optional integer: `None` and `0` are falsy and give
the default, any non-zero value is kept. -/
def pyOrInt (x : Option ℤ) (d : ℤ) : ℤ :=
  match x with
  | some n => if n = 0 then d else n
  | none => d

/-- Python's `x or d` on an optional rational (for `backoff_factor`). -/
def pyOrRat (x : Option ℚ) (d : ℚ) : ℚ :=
  match x with
  | some q => if q = 0 then d else q
  | none => d

/-- The fields set by `HTTPClient.__init__` (lines 57-64). -/
structure HTTPClientState where
  max_retries : ℤ
  timeout : ℤ
  backoff_factor : ℚ
  circuit_breakers : List (List Char × CircuitBreaker)
deriving DecidableEq

/-- `HTTPClient.__init__(max_retries, timeout, backoff_factor)`: every field is
filled with `given or config_default`; the breaker registry starts empty.  The
constructor performs no validation and cannot fail. -/
def HTTPClient.init (cfg : ClientCfg) (mr t : Option ℤ) (bf : Option ℚ) : HTTPClientState :=
  { max_retries := pyOrInt mr cfg.REQUEST_RETRY_ATTEMPTS
    timeout := pyOrInt t cfg.REQUEST_TIMEOUT
    backoff_factor := pyOrRat bf cfg.REQUEST_RETRY_BACKOFF
    circuit_breakers := [] }

/-- Five consecutive failed calls against a fresh breaker, at arbitrary times,
leave it open with `failure_count = 5` and the fifth failure time recorded. -/
theorem runCalls_five_failures (t1 t2 t3 t4 t5 : ℚ) :
    runCalls CircuitBreaker.init [(t1, false), (t2, false), (t3, false), (t4, false), (t5, false)] =
      { failure_threshold := 5, timeout := 60, failure_count := 5,
        last_failure_time := some t5, state := .opened } := by
  simp [runCalls, CircuitBreaker.call, CircuitBreaker.openGate, CircuitBreaker.on_failure,
    CircuitBreaker.init]

/-- C1: once the breaker for a host has recorded `failure_threshold = 5`
consecutive failures it is OPEN; every call made while the elapsed time since
`last_failure_time` does not exceed the 60-second open timeout is rejected with
the circuit-open error, with no network attempt and no state change; once the
timeout has elapsed, the next call is allowed through as the single trial (the
breaker moves to HALF_OPEN for that call and leaves it for CLOSED or OPEN
according to the trial's outcome, so no further call finds it half-open). -/
theorem C1_circuit_breaker_fast_fail_then_single_trial (t1 t2 t3 t4 t5 : ℚ) :
    ∀ cb, cb = runCalls CircuitBreaker.init
        [(t1, false), (t2, false), (t3, false), (t4, false), (t5, false)] →
      cb.state = .opened ∧
      (∀ now ok, now - t5 ≤ 60 →
        cb.call now ok = (.rejected, cb) ∧ ((cb.call now ok).1.attempted = false)) ∧
      (∀ now ok, 60 < now - t5 →
        ((cb.call now ok).1.attempted = true ∧
          (cb.call now ok).2.state = (if ok then CBState.closed else CBState.opened))) := by
  intro cb hcb
  rw [runCalls_five_failures] at hcb
  subst hcb
  refine ⟨rfl, ?_, ?_⟩
  · intro now ok h
    have hno : ¬ ((60 : ℚ) < now - t5) := not_lt.mpr h
    constructor
    · simp [CircuitBreaker.call, CircuitBreaker.openGate, hno]
    · simp [CircuitBreaker.call, CircuitBreaker.openGate, hno, CallR.attempted]
  · intro now ok h
    cases ok with
    | true =>
      constructor
      · simp [CircuitBreaker.call, CircuitBreaker.openGate, h, CallR.attempted,
          CircuitBreaker.on_success]
      · simp [CircuitBreaker.call, CircuitBreaker.openGate, h, CircuitBreaker.on_success]
    | false =>
      constructor
      · simp [CircuitBreaker.call, CircuitBreaker.openGate, h, CallR.attempted,
          CircuitBreaker.on_failure]
      · simp [CircuitBreaker.call, CircuitBreaker.openGate, h, CircuitBreaker.on_failure]

/-- Witness for C1 at concrete times: all five failures at time 0; a call at
time 30 (elapsed 30 ≤ 60) makes no attempt, a call at time 100 (elapsed
100 > 60) is attempted as the trial. -/
theorem C1_witness :
    (runCalls CircuitBreaker.init
      [((0 : ℚ), false), (0, false), (0, false), (0, false), (0, false)]).state = .opened ∧
    (((runCalls CircuitBreaker.init
      [((0 : ℚ), false), (0, false), (0, false), (0, false), (0, false)]).call 30 true).1.attempted
        = false) ∧
    (((runCalls CircuitBreaker.init
      [((0 : ℚ), false), (0, false), (0, false), (0, false), (0, false)]).call 100 true).1.attempted
        = true) := by
  obtain ⟨h1, h2, h3⟩ := C1_circuit_breaker_fast_fail_then_single_trial 0 0 0 0 0 _ rfl
  exact ⟨h1, (h2 30 true (by norm_num)).2, (h3 100 true (by norm_num)).1⟩

/-- The retry loop on a destination that always answers 503: for `r + 1`
iterations starting at attempt index `a`, every iteration raises, the sleeps are
`backoff * 2 ^ (a + i)` for `i < r`, and the final `HTTPError(503)` is
propagated. -/
theorem makeRequestAux_all_503 (b : ℚ) (r a : ℕ) (last : Option PyError) :
    makeRequestAux b (fun _ => .status 503) (r + 1) a last =
      (.error (.httpError 503), (List.range r).map (fun i => b * 2 ^ (a + i)), r + 1) := by
  induction r generalizing a last with
  | zero =>
    simp [makeRequestAux, is4xxException, excResponseCode]
  | succ k ih =>
    have hstep : makeRequestAux b (fun _ => .status 503) (k + 1 + 1) a last =
        ((makeRequestAux b (fun _ => .status 503) (k + 1) (a + 1) (some (.httpError 503))).1,
          b * 2 ^ a ::
            (makeRequestAux b (fun _ => .status 503) (k + 1) (a + 1) (some (.httpError 503))).2.1,
          (makeRequestAux b (fun _ => .status 503) (k + 1) (a + 1) (some (.httpError 503))).2.2
            + 1) := by
      rw [makeRequestAux]
      norm_num [is4xxException, excResponseCode]
    rw [hstep, ih (a + 1) (some (.httpError 503))]
    have hl : b * 2 ^ a :: List.map (fun i => b * 2 ^ (a + 1 + i)) (List.range k) =
        List.map (fun i => b * 2 ^ (a + i)) (List.range (k + 1)) := by
      rw [List.range_succ_eq_map, List.map_cons, List.map_map]
      congr 1
      apply List.map_congr_left
      intro i _
      simp only [Function.comp_apply]
      have hai : a + 1 + i = a + Nat.succ i := by omega
      rw [hai]
    rw [hl]

/-- C2: a destination that returns 503 on every attempt makes a single logical
request perform exactly `max_retries` attempts, sleeping `base_backoff * 2 ^
attempt` seconds between consecutive attempts (`base_backoff * [1, 2, 4, ...]`),
and then fail by propagating the last 5xx error — a `ServiceError` in the
spec's taxonomy. -/
theorem C2_retry_bound_on_constant_503 (m : ℕ) (hm : 1 ≤ m) (b : ℚ) :
    makeRequest m b (fun _ => .status 503) =
      (.error (.httpError 503), (List.range (m - 1)).map (fun i => b * 2 ^ i), m) ∧
    isServiceError (.httpError 503) = true := by
  obtain ⟨k, rfl⟩ : ∃ k, m = k + 1 := ⟨m - 1, by omega⟩
  refine ⟨?_, rfl⟩
  have h := makeRequestAux_all_503 b k 0 none
  simpa [makeRequest] using h

/-- Witness for C2 with the default configuration (`max_retries = 3`,
`base_backoff = 1`). -/
theorem C2_witness :
    makeRequest 3 1 (fun _ => .status 503) =
      (.error (.httpError 503), (List.range (3 - 1)).map (fun i => (1 : ℚ) * 2 ^ i), 3) ∧
    isServiceError (.httpError 503) = true :=
  C2_retry_bound_on_constant_503 3 (by norm_num) 1

/-- C3 (code behaviour at the failing input): a destination answering 404 on the
first attempt.  `raise_for_status` is only invoked for statuses of 500 and
above, so the 4xx response raises nothing: `_make_request` returns the 404
response as a normal result after exactly one attempt, with no retry and no
back-off sleep — no `ClientError` is raised (and the enclosing breaker records
the call as a success). -/
theorem C3_4xx_response_returned_not_raised :
    makeRequest 3 1 (fun _ => .status 404) = (.ok 404, [], 1) := rfl

/-- C8 counterexample: after five failures at time 0, a call at time 100 passes
the open gate (timeout elapsed) and the breaker enters HALF_OPEN with
`failure_count` still 5 — the OPEN → HALF_OPEN transition does not reset it
to 0. -/
theorem C8_counterexample :
    ((runCalls CircuitBreaker.init
        [((0 : ℚ), false), (0, false), (0, false), (0, false), (0, false)]).openGate 100).map
      CircuitBreaker.state = some CBState.halfOpen ∧
    ((runCalls CircuitBreaker.init
        [((0 : ℚ), false), (0, false), (0, false), (0, false), (0, false)]).openGate 100).map
      CircuitBreaker.failure_count = some 5 ∧ (5 : ℕ) ≠ 0 := by
  rw [runCalls_five_failures 0 0 0 0 0]
  refine ⟨?_, ?_, by norm_num⟩ <;> norm_num [CircuitBreaker.openGate]

/-- C8 (amended): over every sequence of calls, `failure_count` is reset to 0
only by a successful (attempted) call; the OPEN → HALF_OPEN gate transition
leaves it unchanged, a rejected call leaves it unchanged, and a failed attempt
increments it. -/
theorem C8_failure_count_reset_only_on_success (cb : CircuitBreaker) (now : ℚ) :
    (∀ cb', cb.openGate now = some cb' → cb'.failure_count = cb.failure_count) ∧
    (∀ ok, ((cb.call now ok).1 = .rejected → (cb.call now ok).2.failure_count = cb.failure_count) ∧
      ((cb.call now ok).1 ≠ .rejected →
        (cb.call now ok).2.failure_count = if ok then 0 else cb.failure_count + 1)) := by
  have hgate : ∀ cb', cb.openGate now = some cb' → cb'.failure_count = cb.failure_count := by
    intro cb' h
    unfold CircuitBreaker.openGate at h
    split at h
    · split at h
      · cases h; rfl
      · cases h
    · cases h; rfl
  refine ⟨hgate, ?_⟩
  intro ok
  cases hg : cb.openGate now with
  | none =>
    constructor
    · intro _; simp [CircuitBreaker.call, hg]
    · intro hne
      exact absurd (by simp [CircuitBreaker.call, hg]) hne
  | some cb' =>
    cases ok with
    | true =>
      constructor
      · intro hr
        exact absurd hr (by simp [CircuitBreaker.call, hg])
      · intro _
        simp [CircuitBreaker.call, hg, CircuitBreaker.on_success]
    | false =>
      constructor
      · intro hr
        exact absurd hr (by simp [CircuitBreaker.call, hg])
      · intro _
        simp [CircuitBreaker.call, hg, CircuitBreaker.on_failure, apply_ite, hgate cb' hg]

/-- Witness for C8 on the concrete open breaker: the gate at time 100 yields the
half-open breaker and its count matches the open breaker's count (5, not 0). -/
theorem C8_witness :
    ({ failure_threshold := 5, timeout := 60, failure_count := 5,
       last_failure_time := some 0, state := .halfOpen } : CircuitBreaker).failure_count =
    ({ failure_threshold := 5, timeout := 60, failure_count := 5,
       last_failure_time := some 0, state := .opened } : CircuitBreaker).failure_count :=
  (C8_failure_count_reset_only_on_success
    { failure_threshold := 5, timeout := 60, failure_count := 5,
      last_failure_time := some 0, state := .opened } 100).1
    _ (by norm_num [CircuitBreaker.openGate])

/-- C9 counterexample: constructing the client with `max_retries = 0` does not
fail — `0 or config.REQUEST_RETRY_ATTEMPTS` silently replaces the falsy zero
with the default 3, and the constructor returns a normal client. -/
theorem C9_counterexample :
    HTTPClient.init defaultCfg (some 0) none none =
      { max_retries := 3, timeout := 10, backoff_factor := 1, circuit_breakers := [] } := rfl

/-- C9 (amended): construction never fails; `max_retries = 0` is treated exactly
like an unset argument and replaced by the configured default, while any
non-zero argument is kept. -/
theorem C9_zero_retries_coerced_to_default (cfg : ClientCfg) (t : Option ℤ) (bf : Option ℚ) :
    HTTPClient.init cfg (some 0) t bf = HTTPClient.init cfg none t bf ∧
    (∀ n : ℤ, n ≠ 0 → (HTTPClient.init cfg (some n) t bf).max_retries = n) := by
  constructor
  · simp [HTTPClient.init, pyOrInt]
  · intro n hn
    simp [HTTPClient.init, pyOrInt, hn]

/-- Witness for C9: the default configuration with a non-zero argument 7. -/
theorem C9_witness :
    (HTTPClient.init defaultCfg (some 7) none none).max_retries = 7 :=
  (C9_zero_retries_coerced_to_default defaultCfg none none).2 7 (by norm_num)

end HttpClient

namespace Scorer

/-- ASCII lower-casing of one character (`str.lower()`; the scorer's keyword
tables and the texts of interest are ASCII). -/
def lowerChar (c : Char) : Char :=
  if 'A' ≤ c ∧ c ≤ 'Z' then Char.ofNat (c.toNat + 32) else c

/-- Lower-casing of a text. -/
def lowerTxt (t : List Char) : List Char := t.map lowerChar

/-- Whether a (lower-cased) character survives
`re.sub(r'[^a-z0-9\s]', ' ', text)`: lower-case letters and digits are kept;
everything else (punctuation, and the whitespace that `split()` consumes
anyway) acts as a separator. -/
def keepChar (c : Char) : Bool :=
  decide (('a' ≤ c ∧ c ≤ 'z') ∨ ('0' ≤ c ∧ c ≤ '9'))

/-- Normalization applied by `preprocess_text` before splitting: lower-case,
then keep letters and digits, mapping every other character to the separator. -/
def prepChar (c : Char) : Char :=
  if keepChar (lowerChar c) then lowerChar c else ' '

/-- One step of the tokenizer, consuming a character from the left of the text:
`p.1` is the word being read (whose remaining characters stand to the right),
`p.2` the completed words further right. -/
def tokStep (c : Char) (p : List Char × List (List Char)) : List Char × List (List Char) :=
  if c = ' ' then ([], if p.1 = [] then p.2 else p.1 :: p.2)
  else (c :: p.1, p.2)

/-- Fold of `tokStep` over the whole text. -/
def tokAux (t : List Char) : List Char × List (List Char) := t.foldr tokStep ([], [])

/-- Python's `str.split()` on a text whose separators are all `' '`: the
maximal non-separator runs, in order, empty runs dropped. -/
def tokenize (t : List Char) : List (List Char) :=
  if (tokAux t).1 = [] then (tokAux t).2 else (tokAux t).1 :: (tokAux t).2

/-- `EnhancedMaintenanceNLP.preprocess_text`: lower-case, replace every
character that is not a letter or digit by a separator, split into words. -/
def wordsOf (t : List Char) : List (List Char) := tokenize (t.map prepChar)

/-- `self.negations`. -/
def negations : List (List Char) :=
  ["not".toList, "no".toList, "none".toList, "neither".toList, "never".toList, "nobody".toList]

/-- `detect_negation(words, position, window=3)`: is any of the (up to three)
words strictly before `position` a negation word?  `words[max(0, pos-3):pos]`
is `(ws.take pos).drop (pos - 3)` thanks to truncated subtraction. -/
def detectNegation (ws : List (List Char)) (pos : ℕ) : Bool :=
  ((ws.take pos).drop (pos - 3)).any (fun w => negations.contains w)

/-- `pattern.split()[0]`: the first whitespace-separated token of a pattern. -/
def firstTok (p : List Char) : List Char := (tokenize p).headD []

/-- `words.index(first) if first in words else -1`, with -1 as `none`: the
position of the first occurrence of the pattern's first token. -/
def firstTokPos (ws : List (List Char)) (p : List Char) : Option ℕ :=
  if firstTok p ∈ ws then some (ws.indexOf (firstTok p)) else none

/-- The test `position == -1 or not detect_negation(words, position)` of the
CRITICAL and HIGH loops. -/
def posOk (ws : List (List Char)) (p : List Char) : Bool :=
  match firstTokPos ws p with
  | none => true
  | some i => ! detectNegation ws i

/-- Whether a CRITICAL- or HIGH-tier pattern `p` is counted against `text` with
word list `ws`: substring containment, and then `position == -1 or not
detect_negation(words, position)`. -/
def condFiltered (text : List Char) (ws : List (List Char)) (p : List Char) : Bool :=
  decide (p <:+: text) && posOk ws p

/-- Whether a MEDIUM-tier pattern is counted: substring containment only — the
medium loop of the source has no negation check. -/
def condPlain (text : List Char) (p : List Char) : Bool := decide (p <:+: text)

/-- One tier of `calculate_pattern_score`: every counted entry adds `wt` to the
score and appends its tag (`tagPre ++ p`), in table order. -/
def tierScan (cond : List Char → Bool) (tagPre : List Char) (wt : ℚ)
    (entries : List (List Char)) : ℚ × List (List Char) :=
  entries.foldr (fun p acc => if cond p then (wt + acc.1, (tagPre ++ p) :: acc.2) else acc) (0, [])

/-- `self.critical_patterns`, flattened in the source's category order
(outage, security, data_loss, emergency, access_blocked, total_failure). -/
def criticalPatterns : List (List Char) :=
  ["down".toList, "outage".toList, "offline".toList, "unavailable".toList, "crashed".toList,
   "not responding".toList,
   "breach".toList, "hacked".toList, "ransomware".toList, "malware".toList, "virus".toList,
   "unauthorized access".toList,
   "data loss".toList, "deleted".toList, "corrupted".toList, "backup failed".toList,
   "cannot recover".toList,
   "emergency".toList, "urgent".toList, "critical".toList, "fire".toList, "flood".toList,
   "gas leak".toList, "electrical hazard".toList,
   "cannot access".toList, "locked out".toList, "denied".toList, "blocked".toList,
   "forbidden".toList,
   "complete failure".toList, "total loss".toList, "entire system".toList, "all services".toList]

/-- `self.high_patterns`, flattened (major_error, performance, connectivity,
auth_issues, facility_urgent). -/
def highPatterns : List (List Char) :=
  ["error".toList, "failing".toList, "broken".toList, "not working".toList,
   "malfunctioning".toList,
   "very slow".toList, "extremely slow".toList, "timeout".toList, "hanging".toList,
   "freezing".toList,
   "connection".toList, "network issue".toList, "vpn".toList, "cannot connect".toList,
   "cannot login".toList, "login failed".toList, "password".toList, "authentication".toList,
   "water leak".toList, "leaking".toList, "hvac".toList, "no cooling".toList,
   "no heating".toList, "pipe burst".toList]

/-- `self.medium_patterns`, flattened (requests, minor_issues, access_request). -/
def mediumPatterns : List (List Char) :=
  ["install".toList, "upgrade".toList, "update".toList, "configure".toList, "setup".toList,
   "sometimes".toList, "intermittent".toList, "occasional".toList, "glitch".toList,
   "need access".toList, "request access".toList, "permission".toList]

/-- `calculate_pattern_score(text, words)`: additive pattern score, the matched
tags in order, and the severity label tracked along the way (returned by the
source but unused by `analyze`'s banding). -/
def calcPatternScore (text : List Char) (ws : List (List Char)) :
    ℚ × List (List Char) × List Char :=
  let c := tierScan (condFiltered text ws) "CRITICAL:".toList 10 criticalPatterns
  let h := tierScan (condFiltered text ws) "HIGH:".toList 6 highPatterns
  let m := tierScan (condPlain text) "MEDIUM:".toList 3 mediumPatterns
  (c.1 + h.1 + m.1, c.2 ++ h.2 ++ m.2,
    if c.2 ≠ [] then "CRITICAL".toList
    else if h.2 ≠ [] then "HIGH".toList
    else if m.2 ≠ [] then "MEDIUM".toList
    else "ROUTINE".toList)

/-- One entry of the intensity-modifier tables: the keyword, its multiplier,
and the display tag the source appends to `modifiers_applied`. -/
structure ModEntry where
  key : List Char
  mult : ℚ
  tag : List Char
deriving DecidableEq

/-- `self.intensifiers`, in table order, with the f-string tags. -/
def intensifiers : List ModEntry :=
  [⟨"extreme".toList, 2, "Intensifier: extreme (x2.0)".toList⟩,
   ⟨"critical".toList, mkRat 18 10, "Intensifier: critical (x1.8)".toList⟩,
   ⟨"severe".toList, mkRat 17 10, "Intensifier: severe (x1.7)".toList⟩,
   ⟨"major".toList, mkRat 16 10, "Intensifier: major (x1.6)".toList⟩,
   ⟨"urgent".toList, mkRat 15 10, "Intensifier: urgent (x1.5)".toList⟩,
   ⟨"serious".toList, mkRat 14 10, "Intensifier: serious (x1.4)".toList⟩,
   ⟨"important".toList, mkRat 13 10, "Intensifier: important (x1.3)".toList⟩,
   ⟨"significant".toList, mkRat 13 10, "Intensifier: significant (x1.3)".toList⟩]

/-- `self.diminishers`, in table order. -/
def diminishers : List ModEntry :=
  [⟨"minor".toList, mkRat 6 10, "Diminisher: minor (x0.6)".toList⟩,
   ⟨"small".toList, mkRat 7 10, "Diminisher: small (x0.7)".toList⟩,
   ⟨"slight".toList, mkRat 7 10, "Diminisher: slight (x0.7)".toList⟩,
   ⟨"little".toList, mkRat 8 10, "Diminisher: little (x0.8)".toList⟩,
   ⟨"maybe".toList, mkRat 8 10, "Diminisher: maybe (x0.8)".toList⟩,
   ⟨"possibly".toList, mkRat 8 10, "Diminisher: possibly (x0.8)".toList⟩,
   ⟨"occasionally".toList, mkRat 7 10, "Diminisher: occasionally (x0.7)".toList⟩]

/-- One loop of `apply_modifiers`: every matched entry multiplies the running
score and appends its tag. -/
def modsFold (es : List ModEntry) (text : List Char) (acc : ℚ × List (List Char)) :
    ℚ × List (List Char) :=
  es.foldl (fun a e => if e.key <:+: text then (a.1 * e.mult, a.2 ++ [e.tag]) else a) acc

/-- `apply_modifiers(text, base_score)`: intensifiers first, then diminishers,
multiplying sequentially. -/
def applyModifiers (text : List Char) (base : ℚ) : ℚ × List (List Char) :=
  modsFold diminishers text (modsFold intensifiers text (base, []))

/-- `self.system_weights`, in the source's insertion order. -/
def sysEntries : List (List Char × ℚ) :=
  [("production".toList, mkRat 25 10), ("prod".toList, mkRat 25 10), ("live".toList, mkRat 23 10),
   ("database".toList, mkRat 22 10), ("db".toList, mkRat 22 10), ("server".toList, 2),
   ("network".toList, 2), ("security".toList, mkRat 23 10), ("firewall".toList, mkRat 22 10),
   ("domain controller".toList, mkRat 22 10), ("active directory".toList, mkRat 21 10),
   ("backup".toList, 2), ("email".toList, mkRat 18 10), ("vpn".toList, mkRat 18 10),
   ("web".toList, mkRat 17 10), ("application".toList, mkRat 15 10), ("app".toList, mkRat 15 10),
   ("workstation".toList, mkRat 13 10), ("laptop".toList, mkRat 12 10), ("desktop".toList, mkRat 12 10),
   ("printer".toList, mkRat 11 10), ("scanner".toList, mkRat 11 10),
   ("building".toList, 2), ("infrastructure".toList, mkRat 19 10), ("facility".toList, mkRat 18 10),
   ("data center".toList, mkRat 25 10), ("server room".toList, mkRat 23 10),
   ("electrical".toList, mkRat 22 10), ("hvac".toList, 2), ("plumbing".toList, mkRat 19 10),
   ("basement".toList, mkRat 16 10)]

/-- `self.scope_weights`, in the source's insertion order. -/
def scopeEntries : List (List Char × ℚ) :=
  [("all users".toList, 3), ("everyone".toList, 3), ("entire company".toList, 3),
   ("entire department".toList, mkRat 25 10), ("whole team".toList, mkRat 23 10), ("department".toList, mkRat 22 10),
   ("multiple users".toList, 2), ("several users".toList, mkRat 18 10), ("team".toList, mkRat 17 10),
   ("few users".toList, mkRat 13 10), ("one user".toList, 1)]

/-- The max-of-matches scan shared by `calculate_system_impact` and
`calculate_scope_impact`: a matched entry replaces the accumulator exactly when
its weight is strictly greater. -/
def maxFold (es : List (List Char × ℚ)) (text : List Char) (acc : ℚ × List Char) :
    ℚ × List Char :=
  es.foldl (fun a e => if e.1 <:+: text ∧ a.1 < e.2 then (e.2, e.1) else a) acc

/-- `calculate_system_impact(text)`. -/
def calcSystemImpact (text : List Char) : ℚ × List Char :=
  maxFold sysEntries text (1, "general".toList)

/-- `calculate_scope_impact(text)`. -/
def calcScopeImpact (text : List Char) : ℚ × List Char :=
  maxFold scopeEntries text (1, "single user".toList)

/-- A regex word character (`\w` under `re.IGNORECASE` on the ASCII texts at
hand): letters, digits, underscore.  The analysed text is lower-cased before
`detect_urgency` sees it, so upper-case letters never actually occur. -/
def isWordChar (c : Char) : Bool :=
  decide (('a' ≤ c ∧ c ≤ 'z') ∨ ('0' ≤ c ∧ c ≤ '9') ∨ ('A' ≤ c ∧ c ≤ 'Z') ∨ c = '_')

/-- A `\b` boundary against the adjacent character (`none` at the ends of the
text): the phrases of the urgency table start and end with word characters, so
the boundary holds exactly when the neighbour is absent or a non-word
character. -/
def bOk : Option Char → Bool
  | none => true
  | some c => ! isWordChar c

/-- Whether phrase `p` matches at the start of `t`, with `prev` the character
just before that position, honouring both `\b` boundaries. -/
def matchHere (p t : List Char) (prev : Option Char) : Bool :=
  bOk prev && decide (p <+: t) && bOk (t.drop p.length).head?

/-- Whether phrase `p` matches with `\b` boundaries anywhere in `t`, where
`prev` is the character just before `t` (`none` at the start of the text). -/
def wordOccursFrom (p : List Char) : Option Char → List Char → Bool
  | prev, [] => matchHere p [] prev
  | prev, c :: rest => matchHere p (c :: rest) prev || wordOccursFrom p (some c) rest

/-- `re.search(r'\b(p₁|p₂|...)\b', text)` for one phrase: a `\b`-delimited
occurrence anywhere in the text. -/
def wordOccurs (p t : List Char) : Bool := wordOccursFrom p none t

/-- The apostrophe character, written by code point to keep the source plain. -/
def apoChar : Char := Char.ofNat 39

/-- One urgency class of `detect_urgency`: the phrases of the alternation, the
bonus, and the display term (the pattern with `\b` and parentheses stripped). -/
structure UrgClass where
  phrases : List (List Char)
  bonus : ℚ
  tag : List Char
deriving DecidableEq

/-- The four urgency classes, in the source's order. -/
def urgencyClasses : List UrgClass :=
  [⟨["emergency".toList, "urgent".toList, "critical".toList, "asap".toList,
     "immediately".toList, "right now".toList], 5,
    "emergency|urgent|critical|asap|immediately|right now".toList⟩,
   ⟨["can".toList ++ apoChar :: "t work".toList, "cannot work".toList, "blocking".toList,
     "stopped".toList, "stuck".toList], 4,
    "can".toList ++ apoChar :: "t work|cannot work|blocking|stopped|stuck".toList⟩,
   ⟨["today".toList, "this morning".toList, "this afternoon".toList, "now".toList], mkRat 25 10,
    "today|this morning|this afternoon|now".toList⟩,
   ⟨["soon".toList, "quickly".toList, "priority".toList, "important".toList], mkRat 15 10,
    "soon|quickly|priority|important".toList⟩]

/-- The fold over urgency classes: every class whose alternation matches
contributes its bonus additively and appends its term. -/
def urgFold (cls : List UrgClass) (text : List Char) : ℚ × List (List Char) :=
  cls.foldr
    (fun cl acc =>
      if cl.phrases.any (fun p => wordOccurs p text) then (cl.bonus + acc.1, cl.tag :: acc.2)
      else acc)
    (0, [])

/-- `detect_urgency(text)`. -/
def detectUrgency (text : List Char) : ℚ × List (List Char) :=
  urgFold urgencyClasses text

/-- Python's `round(x, 2)` on the exact decimal values at hand.  (Python rounds
floats half-to-even; the scores of interest are never half-way ties at the
second decimal, so half-up rounding of the exact rational agrees.) -/
def round2 (x : ℚ) : ℚ := ((round (x * 100) : ℤ) : ℚ) / 100

/-- `m.split(':')[0]`: the tag up to its first colon (used by the banding test
`'CRITICAL' in [m.split(':')[0] for m in matched_patterns]`). -/
def upToColon (m : List Char) : List Char := m.takeWhile (fun c => c ≠ ':')

/-- The analysed request: Python's `request_data` dict, one optional field per
key the source reads. -/
structure RequestData where
  description : Option (List Char)
  system : Option (List Char)
  requester : Option (List Char)
  request_id : Option (List Char)
  timestamp : Option (List Char)
deriving DecidableEq

/-- The `analysis` sub-dictionary of a successful result. -/
structure AnalysisDetails where
  matched_patterns : List (List Char)
  modifiers_applied : List (List Char)
  system_found : List Char
  system_multiplier : ℚ
  scope_found : List Char
  scope_multiplier : ℚ
  urgency_bonus : ℚ
  urgency_terms : List (List Char)
  base_score : ℚ
  confidence : List Char
deriving DecidableEq

/-- The `request_details` sub-dictionary of a successful result. -/
structure RequestDetails where
  description : List Char
  system : List Char
  requester : List Char
  timestamp : List Char
deriving DecidableEq

/-- A successful analysis result (`'success': True`). -/
structure PriorityOut where
  request_id : Option (List Char)
  priority : List Char
  priority_score : ℚ
  priority_description : List Char
  sla : List Char
  analysis : AnalysisDetails
  request_details : RequestDetails
deriving DecidableEq

/-- Result of `analyze`: the validation-error dictionary (`'success': False`)
or the full result. -/
inductive AnalyzeResult
  | failure (error : List Char)
  | success (out : PriorityOut)
deriving DecidableEq

/-- `f"{description} {system}".lower()`: the combined lower-cased text every
stage consumes (missing `system` defaults to the empty string). -/
def combinedOf (req : RequestData) : List Char :=
  lowerTxt (req.description.getD []) ++ ' ' :: lowerTxt (req.system.getD [])

/-- `EnhancedMaintenanceNLP.analyze(request_data)`.  `now` is the value
`datetime.now().isoformat()` would produce at the moment of the call — the one
environmental input of the function, consumed only as the default of the echoed
`timestamp` field. -/
def analyze (req : RequestData) (now : List Char) : AnalyzeResult :=
  match req.description with
  | none => .failure "Missing required field: description".toList
  | some desc =>
    let text := combinedOf req
    let ws := wordsOf text
    let ps := calcPatternScore text ws
    let ms := applyModifiers text ps.1
    let sys := calcSystemImpact text
    let sc := calcScopeImpact text
    let ub := detectUrgency text
    let finalScore := ms.1 * sys.1 * sc.1 + ub.1
    let hasCrit := ps.2.1.any (fun m => upToColon m = "CRITICAL".toList)
    let band : List Char × List Char × List Char :=
      if 40 ≤ finalScore ∨ hasCrit = true then
        ("CRITICAL".toList, "P0 - Critical: Immediate Response Required".toList,
         "15 minutes".toList)
      else if 25 ≤ finalScore then
        ("HIGH".toList, "P1 - High: Respond within 1 hour".toList, "1 hour".toList)
      else if 12 ≤ finalScore then
        ("MEDIUM".toList, "P2 - Medium: Respond within 4 hours".toList, "4 hours".toList)
      else if 5 ≤ finalScore then
        ("LOW".toList, "P3 - Low: Respond within 24 hours".toList, "24 hours".toList)
      else
        ("ROUTINE".toList, "P4 - Routine: Scheduled maintenance".toList, "48-72 hours".toList)
    .success
      { request_id := req.request_id
        priority := band.1
        priority_score := round2 finalScore
        priority_description := band.2.1
        sla := band.2.2
        analysis :=
          { matched_patterns := ps.2.1.take 10
            modifiers_applied := ms.2
            system_found := sys.2
            system_multiplier := sys.1
            scope_found := sc.2
            scope_multiplier := sc.1
            urgency_bonus := ub.1
            urgency_terms := ub.2
            base_score := round2 ps.1
            confidence :=
              if 2 ≤ ps.2.1.length then "high".toList
              else if ps.2.1.length = 1 then "medium".toList
              else "low".toList }
        request_details :=
          { description := desc
            system := req.system.getD []
            requester := req.requester.getD []
            timestamp := req.timestamp.getD now } }

/-- The numeric score of an analysis result (0 for the validation error, which
carries no score). -/
def scoreOf : AnalyzeResult → ℚ
  | .failure _ => 0
  | .success out => out.priority_score

/-- The priority band of a result. -/
def bandOf : AnalyzeResult → List Char
  | .failure _ => []
  | .success out => out.priority

/-- The echoed timestamp of a result. -/
def tsOf : AnalyzeResult → Option (List Char)
  | .failure _ => none
  | .success out => some out.request_details.timestamp

/-- The `success` flag of the returned dictionary. -/
def isSuccess : AnalyzeResult → Bool
  | .failure _ => false
  | .success _ => true

/-- A result with the echoed timestamp blanked out (every other field kept). -/
def stripTs : AnalyzeResult → AnalyzeResult
  | .failure e => .failure e
  | .success out =>
    .success { out with request_details := { out.request_details with timestamp := [] } }

/-- Unfolding one entry of a tier scan. -/
theorem tierScan_cons (cond : List Char → Bool) (pre : List Char) (wt : ℚ)
    (q : List Char) (qs : List (List Char)) :
    tierScan cond pre wt (q :: qs) =
      (if cond q then
        (wt + (tierScan cond pre wt qs).1, (pre ++ q) :: (tierScan cond pre wt qs).2)
      else tierScan cond pre wt qs) := rfl

/-- A tag is recorded by a tier scan exactly when it is the tag of a counted
entry. -/
theorem mem_tierScan {cond : List Char → Bool} {pre : List Char} {wt : ℚ}
    {entries : List (List Char)} {tag : List Char} :
    tag ∈ (tierScan cond pre wt entries).2 ↔
      ∃ p ∈ entries, tag = pre ++ p ∧ cond p = true := by
  induction entries with
  | nil => simp [tierScan]
  | cons q qs ih =>
    rw [tierScan_cons]
    by_cases hq : cond q = true
    · rw [if_pos hq]
      constructor
      · intro h
        rcases List.mem_cons.mp h with rfl | h'
        · exact ⟨q, List.mem_cons_self q qs, rfl, hq⟩
        · obtain ⟨p, hp, rfl, hc⟩ := ih.mp h'
          exact ⟨p, List.mem_cons_of_mem q hp, rfl, hc⟩
      · rintro ⟨p, hp, rfl, hc⟩
        rcases List.mem_cons.mp hp with rfl | hp'
        · exact List.mem_cons_self _ _
        · exact List.mem_cons_of_mem _ (ih.mpr ⟨p, hp', rfl, hc⟩)
    · rw [if_neg hq, ih]
      constructor
      · rintro ⟨p, hp, rfl, hc⟩
        exact ⟨p, List.mem_cons_of_mem q hp, rfl, hc⟩
      · rintro ⟨p, hp, rfl, hc⟩
        rcases List.mem_cons.mp hp with rfl | hp'
        · exact absurd hc hq
        · exact ⟨p, hp', rfl, hc⟩

/-- The score of a tier scan is the tier weight times the number of counted
entries: an entry whose condition fails contributes nothing. -/
theorem tierScan_score (cond : List Char → Bool) (pre : List Char) (wt : ℚ)
    (entries : List (List Char)) :
    (tierScan cond pre wt entries).1 = wt * entries.countP cond := by
  induction entries with
  | nil => simp [tierScan]
  | cons q qs ih =>
    rw [tierScan_cons]
    by_cases hq : cond q = true
    · rw [if_pos hq]
      simp only [List.countP_cons, hq, if_pos]
      push_cast
      rw [ih]
      ring
    · rw [if_neg hq]
      simp only [List.countP_cons, hq]
      simpa using ih

/-- A tier scan over entries none of which is counted yields score 0 and no
tags. -/
theorem tierScan_none (cond : List Char → Bool) (pre : List Char) (wt : ℚ)
    (entries : List (List Char)) (h : ∀ p ∈ entries, cond p = false) :
    tierScan cond pre wt entries = (0, []) := by
  induction entries with
  | nil => rfl
  | cons q qs ih =>
    rw [tierScan_cons, if_neg (by simp [h q (List.mem_cons_self q qs)])]
    exact ih (fun p hp => h p (List.mem_cons_of_mem q hp))

/-- A modifier fold started at score 0 stays at score 0. -/
theorem modsFold_zero (es : List ModEntry) (text : List Char) (tags : List (List Char)) :
    (modsFold es text (0, tags)).1 = 0 := by
  induction es generalizing tags with
  | nil => rfl
  | cons e es ih =>
    show (modsFold es text (if e.key <:+: text then ((0 : ℚ) * e.mult, tags ++ [e.tag])
      else (0, tags))).1 = 0
    by_cases he : e.key <:+: text
    · rw [if_pos he, zero_mul]
      exact ih _
    · rw [if_neg he]
      exact ih _

/-- A max-of-matches fold never drops below its accumulator. -/
theorem maxFold_ge_acc (es : List (List Char × ℚ)) (text : List Char) (acc : ℚ × List Char) :
    acc.1 ≤ (maxFold es text acc).1 := by
  induction es generalizing acc with
  | nil => exact le_refl _
  | cons e es ih =>
    show acc.1 ≤ (maxFold es text (if e.1 <:+: text ∧ acc.1 < e.2 then (e.2, e.1) else acc)).1
    by_cases he : e.1 <:+: text ∧ acc.1 < e.2
    · rw [if_pos he]
      exact le_trans he.2.le (ih (e.2, e.1))
    · rw [if_neg he]
      exact ih acc

/-- A max-of-matches fold dominates the weight of every matched entry. -/
theorem maxFold_ge_of_mem (es : List (List Char × ℚ)) (text : List Char)
    (k : List Char) (w : ℚ) (hk : k <:+: text) :
    ∀ acc, (k, w) ∈ es → w ≤ (maxFold es text acc).1 := by
  induction es with
  | nil =>
    intro acc hm
    cases hm
  | cons e es ih =>
    intro acc hm
    show w ≤ (maxFold es text (if e.1 <:+: text ∧ acc.1 < e.2 then (e.2, e.1) else acc)).1
    rcases List.mem_cons.mp hm with heq | hm'
    · cases heq
      by_cases hlt : acc.1 < w
      · rw [if_pos ⟨hk, hlt⟩]
        exact maxFold_ge_acc es text (w, k)
      · rw [if_neg (fun hc => hlt hc.2)]
        exact le_trans (not_lt.mp hlt) (maxFold_ge_acc es text acc)
    · by_cases he : e.1 <:+: text ∧ acc.1 < e.2
      · rw [if_pos he]
        exact ih _ hm'
      · rw [if_neg he]
        exact ih acc hm'

/-- Unfolding one class of an urgency fold. -/
theorem urgFold_cons (c : UrgClass) (cls : List UrgClass) (text : List Char) :
    urgFold (c :: cls) text =
      (if c.phrases.any (fun p => wordOccurs p text) then
        (c.bonus + (urgFold cls text).1, c.tag :: (urgFold cls text).2)
      else urgFold cls text) := rfl

/-- An urgency fold over classes none of which matches yields bonus 0 and no
terms. -/
theorem urgFold_none (cls : List UrgClass) (text : List Char)
    (h : ∀ cl ∈ cls, ∀ ph ∈ cl.phrases, wordOccurs ph text = false) :
    urgFold cls text = (0, []) := by
  induction cls with
  | nil => rfl
  | cons c cs ih =>
    rw [urgFold_cons]
    rw [show urgFold cs text = (0, []) from ih (fun cl hcl => h cl (List.mem_cons_of_mem c hcl))]
    rw [if_neg]
    simp only [List.any_eq_true, not_exists]
    intro ph hph
    rw [h c (List.mem_cons_self c cs) ph hph.1] at hph
    simp at hph

/-- An urgency fold over classes none of which matches yields bonus 0 and no
terms. -/
theorem detectUrgency_none (text : List Char)
    (h : ∀ cl ∈ urgencyClasses, ∀ ph ∈ cl.phrases, wordOccurs ph text = false) :
    detectUrgency text = (0, []) :=
  urgFold_none urgencyClasses text h

/-- Rounding to two decimals is monotone. -/
theorem round2_mono {x y : ℚ} (h : x ≤ y) : round2 x ≤ round2 y := by
  unfold round2
  have hr : round (x * 100) ≤ round (y * 100) := by
    rw [round_eq, round_eq]
    exact Int.floor_mono (by linarith)
  have : ((round (x * 100) : ℤ) : ℚ) ≤ ((round (y * 100) : ℤ) : ℚ) := by exact_mod_cast hr
  linarith

/-- Rounding fixes 0. -/
theorem round2_zero : round2 0 = 0 := by
  unfold round2
  norm_num

/-- Two lists with distinct leading characters are distinct, whatever follows. -/
theorem consAppNe {a b : Char} {x y p q : List Char} (hne : a ≠ b) :
    (a :: x) ++ p ≠ (b :: y) ++ q := by
  intro h
  rw [List.cons_append, List.cons_append] at h
  exact hne (List.head_eq_of_cons_eq h)

/-- A modifier fold whose accumulated score is 0 keeps it at 0 (every step
multiplies). -/
theorem modsFold_fst_zero (es : List ModEntry) (text : List Char) :
    ∀ acc : ℚ × List (List Char), acc.1 = 0 → (modsFold es text acc).1 = 0 := by
  induction es with
  | nil =>
    intro acc h
    exact h
  | cons e es ih =>
    intro acc h
    show (modsFold es text (if e.key <:+: text then (acc.1 * e.mult, acc.2 ++ [e.tag])
      else acc)).1 = 0
    by_cases he : e.key <:+: text
    · rw [if_pos he]
      exact ih _ (by simp [h])
    · rw [if_neg he]
      exact ih acc h

/-- `apply_modifiers` at base score 0 yields score 0. -/
theorem applyModifiers_fst_zero (text : List Char) : (applyModifiers text 0).1 = 0 :=
  modsFold_fst_zero _ _ _ (modsFold_fst_zero _ _ _ rfl)

/-- The pattern score as weight-times-count per tier: an entry whose condition
is false contributes nothing to the score. -/
theorem calcPatternScore_score (text : List Char) (ws : List (List Char)) :
    (calcPatternScore text ws).1 =
      10 * (criticalPatterns.countP (condFiltered text ws) : ℚ) +
      6 * (highPatterns.countP (condFiltered text ws) : ℚ) +
      3 * (mediumPatterns.countP (condPlain text) : ℚ) := by
  unfold calcPatternScore
  simp only [tierScan_score]

/-- The recorded matches are the three tier scans in order. -/
theorem calcPatternScore_matched (text : List Char) (ws : List (List Char)) :
    (calcPatternScore text ws).2.1 =
      (tierScan (condFiltered text ws) "CRITICAL:".toList 10 criticalPatterns).2 ++
      (tierScan (condFiltered text ws) "HIGH:".toList 6 highPatterns).2 ++
      (tierScan (condPlain text) "MEDIUM:".toList 3 mediumPatterns).2 := rfl

/-- A neutral request: when no pattern-table entry occurs in the combined text
and no urgency phrase matches, `analyze` succeeds with band ROUTINE and
score 0 (whatever the modifier, system and scope tables would say: they only
scale the zero pattern score). -/
theorem analyze_neutral (req : RequestData) (now : List Char) (d : List Char)
    (hd : req.description = some d)
    (hpat : ∀ p ∈ criticalPatterns ++ highPatterns ++ mediumPatterns, ¬ p <:+: combinedOf req)
    (hurg : ∀ cl ∈ urgencyClasses, ∀ ph ∈ cl.phrases, wordOccurs ph (combinedOf req) = false) :
    isSuccess (analyze req now) = true ∧ bandOf (analyze req now) = "ROUTINE".toList ∧
      scoreOf (analyze req now) = 0 := by
  have hcf : ∀ p ∈ criticalPatterns,
      condFiltered (combinedOf req) (wordsOf (combinedOf req)) p = false := by
    intro p hp
    have h := hpat p (by simp [hp])
    simp [condFiltered, h]
  have hhf : ∀ p ∈ highPatterns,
      condFiltered (combinedOf req) (wordsOf (combinedOf req)) p = false := by
    intro p hp
    have h := hpat p (by simp [hp])
    simp [condFiltered, h]
  have hmf : ∀ p ∈ mediumPatterns, condPlain (combinedOf req) p = false := by
    intro p hp
    have h := hpat p (by simp [hp])
    simp [condPlain, h]
  have hcps : calcPatternScore (combinedOf req) (wordsOf (combinedOf req)) =
      (0, [], "ROUTINE".toList) := by
    unfold calcPatternScore
    rw [tierScan_none _ _ _ _ hcf, tierScan_none _ _ _ _ hhf, tierScan_none _ _ _ _ hmf]
    norm_num
  have hub : detectUrgency (combinedOf req) = (0, []) := detectUrgency_none _ hurg
  obtain ⟨d0, s0, r0, i0, t0⟩ := req
  simp only [RequestData.description] at hd
  subst hd
  simp only [analyze, isSuccess, bandOf, scoreOf, hcps, hub, applyModifiers_fst_zero]
  norm_num [round2_zero]

/-- The request `{'description': "no install"}` of the C4 analysis. -/
def exNoInstall : RequestData := ⟨some "no install".toList, none, none, none, none⟩

/-- The request `{'description': "system is NOT down"}` of the spec's negation
property. -/
def exNotDown : RequestData := ⟨some "system is NOT down".toList, none, none, none, none⟩

/-- C4 counterexample: in "no install" the MEDIUM-tier keyword "install" is
preceded by the negation word "no" inside the 3-token lookback window
(`detect_negation` at its position answers true), yet the match is recorded
and contributes 3 points — the medium loop of `calculate_pattern_score` never
consults `detect_negation`, so the claim fails for MEDIUM-tier patterns. -/
theorem C4_counterexample :
    firstTokPos (wordsOf (combinedOf exNoInstall)) "install".toList = some 1 ∧
    detectNegation (wordsOf (combinedOf exNoInstall)) 1 = true ∧
    "MEDIUM:install".toList ∈
      (calcPatternScore (combinedOf exNoInstall) (wordsOf (combinedOf exNoInstall))).2.1 ∧
    (calcPatternScore (combinedOf exNoInstall) (wordsOf (combinedOf exNoInstall))).1 = 3 := by
  refine ⟨by decide, by decide, by decide, ?_⟩
  rw [calcPatternScore_score]
  rw [show criticalPatterns.countP
      (condFiltered (combinedOf exNoInstall) (wordsOf (combinedOf exNoInstall))) = 0 from
      by decide]
  rw [show highPatterns.countP
      (condFiltered (combinedOf exNoInstall) (wordsOf (combinedOf exNoInstall))) = 0 from
      by decide]
  rw [show mediumPatterns.countP (condPlain (combinedOf exNoInstall)) = 1 from by decide]
  norm_num

/-- C4 (amended): the negation discard applies exactly to the CRITICAL- and
HIGH-tier tables — a pattern of those tiers whose first token's first
occurrence is preceded by a negation word within the 3-token lookback window
is not counted and not recorded — while a matched MEDIUM-tier pattern is
always recorded, negated or not; and "system is NOT down" produces no match at
all (in particular no CRITICAL match for "down") and pattern score 0. -/
theorem C4_negation_filter_skips_medium_tier (text : List Char) (ws : List (List Char)) :
    (∀ p ∈ criticalPatterns, ∀ i, firstTokPos ws p = some i → detectNegation ws i = true →
      condFiltered text ws p = false ∧
        ("CRITICAL:".toList ++ p) ∉ (calcPatternScore text ws).2.1) ∧
    (∀ p ∈ highPatterns, ∀ i, firstTokPos ws p = some i → detectNegation ws i = true →
      condFiltered text ws p = false ∧
        ("HIGH:".toList ++ p) ∉ (calcPatternScore text ws).2.1) ∧
    (∀ p ∈ mediumPatterns, p <:+: text →
      ("MEDIUM:".toList ++ p) ∈ (calcPatternScore text ws).2.1) ∧
    calcPatternScore (combinedOf exNotDown) (wordsOf (combinedOf exNotDown)) =
      (0, [], "ROUTINE".toList) := by
  refine ⟨?_, ?_, ?_, ?_⟩
  · intro p hp i hpos hneg
    have hcond : condFiltered text ws p = false := by
      simp [condFiltered, posOk, hpos, hneg]
    refine ⟨hcond, ?_⟩
    intro hmem
    rw [calcPatternScore_matched] at hmem
    rcases List.mem_append.mp hmem with hmem' | hmem'
    · rcases List.mem_append.mp hmem' with hc | hh
      · obtain ⟨q, _, heq, hcq⟩ := mem_tierScan.mp hc
        rw [List.append_cancel_left heq] at hcond
        rw [hcond] at hcq
        cases hcq
      · obtain ⟨q, _, heq, _⟩ := mem_tierScan.mp hh
        exact absurd heq (consAppNe (by decide))
    · obtain ⟨q, _, heq, _⟩ := mem_tierScan.mp hmem'
      exact absurd heq (consAppNe (by decide))
  · intro p hp i hpos hneg
    have hcond : condFiltered text ws p = false := by
      simp [condFiltered, posOk, hpos, hneg]
    refine ⟨hcond, ?_⟩
    intro hmem
    rw [calcPatternScore_matched] at hmem
    rcases List.mem_append.mp hmem with hmem' | hmem'
    · rcases List.mem_append.mp hmem' with hc | hh
      · obtain ⟨q, _, heq, _⟩ := mem_tierScan.mp hc
        exact absurd heq (consAppNe (by decide))
      · obtain ⟨q, _, heq, hcq⟩ := mem_tierScan.mp hh
        rw [List.append_cancel_left heq] at hcond
        rw [hcond] at hcq
        cases hcq
    · obtain ⟨q, _, heq, _⟩ := mem_tierScan.mp hmem'
      exact absurd heq (consAppNe (by decide))
  · intro p hp hsub
    rw [calcPatternScore_matched]
    refine List.mem_append.mpr (Or.inr ?_)
    exact mem_tierScan.mpr ⟨p, hp, rfl, by simp [condPlain, hsub]⟩
  · refine Prod.ext_iff.mpr ⟨?_, Prod.ext_iff.mpr ⟨by decide, by decide⟩⟩
    rw [calcPatternScore_score]
    rw [show criticalPatterns.countP
        (condFiltered (combinedOf exNotDown) (wordsOf (combinedOf exNotDown))) = 0 from
        by decide]
    rw [show highPatterns.countP
        (condFiltered (combinedOf exNotDown) (wordsOf (combinedOf exNotDown))) = 0 from
        by decide]
    rw [show mediumPatterns.countP (condPlain (combinedOf exNotDown)) = 0 from by decide]
    norm_num

/-- Witness for C4: the negated CRITICAL keyword "down" of "system is NOT down"
is discarded, while the negated MEDIUM keyword "install" of "no install" is
still recorded. -/
theorem C4_witness :
    (condFiltered (combinedOf exNotDown) (wordsOf (combinedOf exNotDown)) "down".toList
        = false ∧
      ("CRITICAL:".toList ++ "down".toList) ∉
        (calcPatternScore (combinedOf exNotDown) (wordsOf (combinedOf exNotDown))).2.1) ∧
    ("MEDIUM:".toList ++ "install".toList) ∈
      (calcPatternScore (combinedOf exNoInstall) (wordsOf (combinedOf exNoInstall))).2.1 :=
  ⟨(C4_negation_filter_skips_medium_tier (combinedOf exNotDown)
      (wordsOf (combinedOf exNotDown))).1 "down".toList (by decide) 3 (by decide) (by decide),
   (C4_negation_filter_skips_medium_tier (combinedOf exNoInstall)
      (wordsOf (combinedOf exNoInstall))).2.2.1 "install".toList (by decide) (by decide)⟩

/-- C6 counterexample: the same request analysed at two different clock
readings yields two different outputs — the echoed timestamp defaults to
`datetime.now().isoformat()`, an environmental input. -/
theorem C6_counterexample :
    analyze ⟨some "x".toList, none, none, none, none⟩ "a".toList ≠
      analyze ⟨some "x".toList, none, none, none, none⟩ "b".toList := by
  intro h
  have h1 : tsOf (analyze ⟨some "x".toList, none, none, none, none⟩ "a".toList) =
      some "a".toList := rfl
  rw [h] at h1
  have h2 : tsOf (analyze ⟨some "x".toList, none, none, none, none⟩ "b".toList) =
      some "b".toList := rfl
  rw [h2] at h1
  exact absurd h1 (by decide)

/-- C6 (amended): `analyze` is a pure function of the request and of the single
clock reading it consumes; two calls with identical input agree on every field
except the echoed `request_details.timestamp`, and agree completely whenever
the input carries its own timestamp. -/
theorem C6_deterministic_up_to_default_timestamp (req : RequestData) (n1 n2 : List Char) :
    (req.timestamp.isSome = true → analyze req n1 = analyze req n2) ∧
    stripTs (analyze req n1) = stripTs (analyze req n2) := by
  obtain ⟨d0, s0, r0, i0, t0⟩ := req
  constructor
  · intro hts
    obtain ⟨t, rfl⟩ := Option.isSome_iff_exists.mp hts
    cases d0 with
    | none => rfl
    | some d => rfl
  · cases d0 with
    | none => rfl
    | some d =>
      cases t0 with
      | none => rfl
      | some t => rfl

/-- Witness for C6: a request carrying its own timestamp is analysed
identically under two different clock readings. -/
theorem C6_witness :
    analyze ⟨some "x".toList, none, none, none, some "2024-01-01".toList⟩ "a".toList =
      analyze ⟨some "x".toList, none, none, none, some "2024-01-01".toList⟩ "b".toList :=
  (C6_deterministic_up_to_default_timestamp
    ⟨some "x".toList, none, none, none, some "2024-01-01".toList⟩ "a".toList "b".toList).1 rfl

/-- C7 counterexample: the empty-string description is accepted — `analyze`
only tests key presence (`'description' not in request_data`), so
`{'description': ""}` succeeds with band ROUTINE and score 0 instead of
failing with a ValidationError. -/
theorem C7_counterexample :
    isSuccess (analyze ⟨some [], none, none, none, none⟩ []) = true ∧
    bandOf (analyze ⟨some [], none, none, none, none⟩ []) = "ROUTINE".toList ∧
    scoreOf (analyze ⟨some [], none, none, none, none⟩ []) = 0 :=
  analyze_neutral _ _ [] rfl (by decide) (by decide)

/-- C7 (amended): `analyze` returns the ValidationError dictionary exactly when
the `description` key is absent; every request that carries the key — even with
an empty string — succeeds; and a text in which no pattern-table entry occurs
and no urgency phrase matches yields band ROUTINE with score 0. -/
theorem C7_fails_exactly_when_description_key_missing (req : RequestData) (now : List Char) :
    ((∃ e, analyze req now = .failure e) ↔ req.description = none) ∧
    (∀ d, req.description = some d →
      (∀ p ∈ criticalPatterns ++ highPatterns ++ mediumPatterns, ¬ p <:+: combinedOf req) →
      (∀ cl ∈ urgencyClasses, ∀ ph ∈ cl.phrases, wordOccurs ph (combinedOf req) = false) →
      isSuccess (analyze req now) = true ∧ bandOf (analyze req now) = "ROUTINE".toList ∧
        scoreOf (analyze req now) = 0) := by
  refine ⟨?_, fun d hd hpat hurg => analyze_neutral req now d hd hpat hurg⟩
  obtain ⟨d0, s0, r0, i0, t0⟩ := req
  cases d0 with
  | none =>
    exact ⟨fun _ => rfl, fun _ => ⟨"Missing required field: description".toList, rfl⟩⟩
  | some d =>
    constructor
    · rintro ⟨e, he⟩
      simp [analyze] at he
    · intro h
      simp [RequestData.description] at h

/-- Witness for C7: a missing description fails; the neutral text
"hello there" succeeds with ROUTINE and score 0. -/
theorem C7_witness :
    (∃ e, analyze ⟨none, none, none, none, none⟩ [] = .failure e) ∧
    (isSuccess (analyze ⟨some "hello there".toList, none, none, none, none⟩ []) = true ∧
      bandOf (analyze ⟨some "hello there".toList, none, none, none, none⟩ []) =
        "ROUTINE".toList ∧
      scoreOf (analyze ⟨some "hello there".toList, none, none, none, none⟩ []) = 0) :=
  ⟨(C7_fails_exactly_when_description_key_missing ⟨none, none, none, none, none⟩ []).1.mpr rfl,
   (C7_fails_exactly_when_description_key_missing
      ⟨some "hello there".toList, none, none, none, none⟩ []).2 "hello there".toList rfl
      (by decide) (by decide)⟩

/-- C10: keyword matching is plain substring containment on the combined
lower-cased text, not whole-word matching: every system-table key that occurs
as a substring bounds the system multiplier from below; concretely, "prod"
inside the longer word "producing" selects multiplier 2.5 with label "prod",
and "occasional" inside "occasionally" is recorded as a MEDIUM-tier match —
in both cases the matched keyword is not a whole word of the text. -/
theorem C10_matching_is_substring_containment :
    (∀ t k w, (k, w) ∈ sysEntries → k <:+: t → w ≤ (calcSystemImpact t).1) ∧
    calcSystemImpact "producing ".toList = (mkRat 25 10, "prod".toList) ∧
    "MEDIUM:occasional".toList ∈
      (calcPatternScore "happens occasionally ".toList
        (wordsOf "happens occasionally ".toList)).2.1 ∧
    "occasional".toList ∉ wordsOf "happens occasionally ".toList ∧
    "prod".toList ∉ wordsOf "producing ".toList := by
  refine ⟨?_, by decide, by decide, by decide, by decide⟩
  intro t k w hm hk
  exact maxFold_ge_of_mem sysEntries t k w hk _ hm

/-- Witness for C10: the system entry ("prod", 2.5) matched inside
"producing". -/
theorem C10_witness :
    mkRat 25 10 ≤ (calcSystemImpact "producing ".toList).1 :=
  C10_matching_is_substring_containment.1 "producing ".toList "prod".toList (mkRat 25 10)
    (by decide) (by decide)

/-! Auxiliary theory for the modifier-monotonicity claim: how substring
occurrences, tokens and word-boundary matches behave when a single word is
appended to the analysed text. -/

/-- An infix of `a` is an infix of `a ++ b`. -/
theorem sub_app_right {p a : List Char} (b : List Char) (h : p <:+: a) : p <:+: a ++ b := by
  obtain ⟨s, r, rfl⟩ := h
  exact ⟨s, r ++ b, by simp⟩

/-- The only infix of the empty text is the empty phrase. -/
theorem sub_nil {p : List Char} (h : p <:+: []) : p = [] := List.infix_nil.mp h

/-- Reading an element of an appended list within the left part. -/
theorem getD_append_left {l l' : List Char} {i : ℕ} (h : i < l.length) (d : Char) :
    (l ++ l').getD i d = l.getD i d := by
  rw [List.getD_eq_getElem _ _ (by simp; omega), List.getD_eq_getElem _ _ h]
  exact List.getElem_append_left h

/-- Reading an element of an appended list within the right part. -/
theorem getD_append_right {l l' : List Char} {i : ℕ} (h : l.length ≤ i)
    (h2 : i < (l ++ l').length) (d : Char) :
    (l ++ l').getD i d = l'.getD (i - l.length) d := by
  rw [List.getD_eq_getElem _ _ h2, List.getD_eq_getElem _ _ (by simp at h2 ⊢; omega)]
  exact List.getElem_append_right h

/-- Decomposition of an occurrence across a separator: an infix of
`a ++ ' ' :: b` lies within `a`, lies within `b`, or covers the separator, in
which case the phrase holds `' '` at an index `j` with everything before it a
suffix of `a` and everything after it a prefix of `b`. -/
theorem sub_split {p a b : List Char} (h : p <:+: a ++ ' ' :: b) :
    p <:+: a ∨ p <:+: b ∨
      ∃ j, j < p.length ∧ p.getD j ' ' = ' ' ∧ p.take j <:+ a ∧ p.drop (j + 1) <+: b := by
  obtain ⟨s, r, hsr⟩ := h
  have hlens : s.length + p.length + r.length = a.length + 1 + b.length := by
    have hx := congrArg List.length hsr
    simp [List.length_append] at hx
    omega
  by_cases h1 : s.length + p.length ≤ a.length
  · left
    have hpp : s ++ p <+: a ++ ' ' :: b := ⟨r, by simpa [List.append_assoc] using hsr⟩
    have hpa : a <+: a ++ ' ' :: b := ⟨' ' :: b, rfl⟩
    have hsp : s ++ p <+: a :=
      List.prefix_of_prefix_length_le hpp hpa (by simpa using h1)
    obtain ⟨r2, hr2⟩ := hsp
    exact ⟨s, r2, by simpa [List.append_assoc] using hr2⟩
  · by_cases h2 : a.length + 1 ≤ s.length
    · right; left
      have hs1 : p ++ r <:+ a ++ ' ' :: b := ⟨s, by simpa [List.append_assoc] using hsr⟩
      have hs2 : b <:+ a ++ ' ' :: b := ⟨a ++ [' '], by simp⟩
      have hlen : (p ++ r).length ≤ b.length := by
        simp only [List.length_append]
        omega
      have hpb : p ++ r <:+ b := List.suffix_of_suffix_length_le hs1 hs2 hlen
      obtain ⟨s2, hs2'⟩ := hpb
      exact ⟨s2, r, by simpa [List.append_assoc] using hs2'⟩
    · right; right
      have hj1 : s.length ≤ a.length := by omega
      have hj2 : a.length < s.length + p.length := by omega
      refine ⟨a.length - s.length, by omega, ?_, ?_, ?_⟩
      · have hc := congrArg (fun l => l.getD a.length ' ') hsr
        simp only at hc
        rw [@getD_append_left (s ++ p) r a.length (by simp; omega) ' '] at hc
        rw [@getD_append_right s p a.length hj1 (by simp; omega) ' '] at hc
        rw [@getD_append_right a (' ' :: b) a.length (le_refl _) (by simp) ' '] at hc
        simpa using hc
      · have hc := congrArg (List.take a.length) hsr
        simp only at hc
        rw [@List.take_append_of_le_length _ (s ++ p) r a.length (by simp; omega)] at hc
        rw [show a.length = s.length + (a.length - s.length) from by omega] at hc
        rw [List.take_append] at hc
        rw [show s.length + (a.length - s.length) = a.length from by omega] at hc
        rw [List.take_left] at hc
        exact ⟨s, hc⟩
      · have hc := congrArg (List.drop (a.length + 1)) hsr
        simp only at hc
        rw [@List.drop_append_of_le_length _ (s ++ p) r (a.length + 1) (by simp; omega)] at hc
        rw [show a.length + 1 = s.length + (a.length - s.length + 1) from by omega] at hc
        rw [List.drop_append] at hc
        rw [show a ++ ' ' :: b = (a ++ [' ']) ++ b from by simp] at hc
        rw [show s.length + (a.length - s.length + 1) = (a ++ [' ']).length + 0 from by
          simp; omega] at hc
        rw [List.drop_append] at hc
        exact ⟨r, by simpa using hc⟩

/-- A space-free phrase occurring across a separator is impossible: it lies on
one side. -/
theorem sub_split_nospace {p a b : List Char} (hp : ' ' ∉ p)
    (h : p <:+: a ++ ' ' :: b) : p <:+: a ∨ p <:+: b := by
  rcases sub_split h with h1 | h1 | ⟨j, hj, hsp, _, _⟩
  · exact Or.inl h1
  · exact Or.inr h1
  · rw [List.getD_eq_getElem _ _ hj] at hsp
    exact absurd (hsp ▸ List.getElem_mem hj) hp

/-- A word that does not occur in `t` does not occur in `t ++ " "` either. -/
theorem not_sub_space {w t : List Char} (hw : w ≠ []) (hsp : ' ' ∉ w)
    (h : ¬ w <:+: t) : ¬ w <:+: t ++ [' '] := by
  intro hc
  rcases sub_split_nospace hsp (show w <:+: t ++ ' ' :: [] from hc) with h1 | h1
  · exact h h1
  · exact hw (sub_nil h1)

/-- Safety of a phrase against an appended extension: the phrase neither occurs
inside the extension nor spans into it (no split of the phrase at one of its
separators has its tail part a prefix of the extension). -/
def extSafe (p ext : List Char) : Prop :=
  ¬ p <:+: ext ∧ ∀ j < p.length, ¬ (p.getD j ' ' = ' ' ∧ p.drop (j + 1) <+: ext)

instance (p ext : List Char) : Decidable (extSafe p ext) := by
  unfold extSafe
  infer_instance

/-- For a phrase that is safe against the appended word, occurrence in the
extended text is the same as occurrence in the original text. -/
theorem sub_ext_iff {p t w : List Char} (hsafe : extSafe p (w ++ [' '])) :
    p <:+: t ++ ' ' :: (w ++ [' ']) ↔ p <:+: t ++ [' '] := by
  constructor
  · intro h
    rcases sub_split h with h1 | h1 | ⟨j, hj, hsp, _, hdrop⟩
    · exact sub_app_right [' '] h1
    · exact absurd h1 hsafe.1
    · exact absurd ⟨hsp, hdrop⟩ (hsafe.2 j hj)
  · intro h
    have h2 : p <:+: (t ++ [' ']) ++ (w ++ [' ']) := sub_app_right _ h
    simpa [List.append_assoc] using h2

/-- An infix stays an infix under a front extension. -/
theorem sub_cons {p x : List Char} (c : Char) (h : p <:+: x) : p <:+: c :: x := by
  obtain ⟨s, r, rfl⟩ := h
  exact ⟨c :: s, r, rfl⟩

/-- A prefix is an infix. -/
theorem pfx_sub {p x : List Char} (h : p <+: x) : p <:+: x := by
  obtain ⟨r, rfl⟩ := h
  exact ⟨[], r, by simp⟩

/-- Folding the tokenizer step with a pre-filled completed-word list appends
that list after the text's own words. -/
theorem foldr_tokStep_acc (x : List Char) (W : List (List Char)) :
    x.foldr tokStep ([], W) = ((tokAux x).1, (tokAux x).2 ++ W) := by
  induction x with
  | nil => simp [tokAux]
  | cons c x ih =>
    have hx : tokAux (c :: x) = tokStep c (tokAux x) := rfl
    show tokStep c (x.foldr tokStep ([], W)) = _
    rw [ih, hx]
    unfold tokStep
    by_cases hc : c = ' '
    · rw [if_pos hc, if_pos hc]
      by_cases h1 : (tokAux x).1 = []
      · simp [h1]
      · simp [h1]
    · rw [if_neg hc, if_neg hc]

/-- Tokenizing around a separator splits the text. -/
theorem tokenize_append (x y : List Char) :
    tokenize (x ++ ' ' :: y) = tokenize x ++ tokenize y := by
  have haux : tokAux (x ++ ' ' :: y) = ((tokAux x).1, (tokAux x).2 ++ tokenize y) := by
    show (x ++ ' ' :: y).foldr tokStep ([], []) = _
    rw [List.foldr_append]
    have h0 : (' ' :: y).foldr tokStep ([], []) = ([], tokenize y) := rfl
    rw [h0]
    exact foldr_tokStep_acc x (tokenize y)
  unfold tokenize
  rw [haux]
  by_cases h1 : (tokAux x).1 = []
  · simp [h1, tokenize]
  · simp [h1, tokenize]

/-- The tokenizer state after a space-free text: the text is the word being
read, no word completed. -/
theorem tokAux_nospace (w : List Char) (h : ' ' ∉ w) : tokAux w = (w, []) := by
  induction w with
  | nil => rfl
  | cons c w ih =>
    have hc : c ≠ ' ' := fun hc => h (hc ▸ List.mem_cons_self c w)
    have hw : ' ' ∉ w := fun hw => h (List.mem_cons_of_mem c hw)
    show tokStep c (tokAux w) = _
    rw [ih hw]
    simp [tokStep, hc]

/-- A non-empty space-free text is its own single token. -/
theorem tokenize_single {w : List Char} (hw : w ≠ []) (hsp : ' ' ∉ w) : tokenize w = [w] := by
  unfold tokenize
  rw [tokAux_nospace w hsp]
  simp [hw]

/-- The separator is fixed by normalization. -/
theorem prepChar_space : prepChar ' ' = ' ' := rfl

/-- A trailing separator adds no word. -/
theorem wordsOf_trailing (t : List Char) : wordsOf (t ++ [' ']) = wordsOf t := by
  unfold wordsOf
  rw [show (t ++ [' ']).map prepChar = t.map prepChar ++ ' ' :: [] from by
    simp [prepChar_space]]
  rw [tokenize_append]
  simp [tokenize, tokAux]

/-- Appending one normalized space-free word to the text appends exactly that
word to the token list. -/
theorem wordsOf_append_word (t w : List Char) (hw : w ≠ []) (hsp : ' ' ∉ w)
    (hprep : w.map prepChar = w) :
    wordsOf (t ++ ' ' :: (w ++ [' '])) = wordsOf (t ++ [' ']) ++ [w] := by
  unfold wordsOf
  rw [show (t ++ ' ' :: (w ++ [' '])).map prepChar =
      t.map prepChar ++ ' ' :: (w.map prepChar ++ ' ' :: []) from by simp [prepChar_space]]
  rw [hprep, tokenize_append, tokenize_append, tokenize_single hw hsp]
  rw [show (t ++ [' ']).map prepChar = t.map prepChar ++ ' ' :: [] from by
    simp [prepChar_space]]
  rw [tokenize_append]
  simp [tokenize, tokAux]

/-- The tokenizer's running word is a prefix, its completed words are infixes,
of the text. -/
theorem tokAux_parts (x : List Char) :
    (tokAux x).1 <+: x ∧ ∀ q ∈ (tokAux x).2, q <:+: x := by
  induction x with
  | nil => exact ⟨⟨[], rfl⟩, by simp [tokAux]⟩
  | cons c x ih =>
    have hx : tokAux (c :: x) = tokStep c (tokAux x) := rfl
    rw [hx]
    unfold tokStep
    by_cases hc : c = ' '
    · rw [if_pos hc]
      refine ⟨⟨c :: x, rfl⟩, ?_⟩
      intro q hq
      by_cases h1 : (tokAux x).1 = []
      · rw [if_pos h1] at hq
        exact sub_cons c (ih.2 q hq)
      · rw [if_neg h1] at hq
        rcases List.mem_cons.mp hq with rfl | hq'
        · exact sub_cons c (pfx_sub ih.1)
        · exact sub_cons c (ih.2 q hq')
    · rw [if_neg hc]
      constructor
      · obtain ⟨r, hr⟩ := ih.1
        exact ⟨r, by simp [hr]⟩
      · intro q hq
        exact sub_cons c (ih.2 q hq)

/-- The first token of a phrase is an infix of the phrase. -/
theorem firstTok_sub (p : List Char) : firstTok p <:+: p := by
  unfold firstTok tokenize
  by_cases h1 : (tokAux p).1 = []
  · rw [if_pos h1]
    cases hsnd : (tokAux p).2 with
    | nil => exact ⟨[], p, by simp⟩
    | cons q qs =>
      have hq : q ∈ (tokAux p).2 := by
        rw [hsnd]
        exact List.mem_cons_self _ _
      simpa using (tokAux_parts p).2 q hq
  · rw [if_neg h1]
    simpa using pfx_sub (tokAux_parts p).1

/-- The index of an element present in the left part of an append. -/
theorem indexOf_append_left {x : List Char} {l : List (List Char)} (h : x ∈ l)
    (l' : List (List Char)) : (l ++ l').indexOf x = l.indexOf x := by
  induction l with
  | nil => cases h
  | cons b l ih =>
    rw [List.cons_append, List.indexOf_cons, List.indexOf_cons]
    by_cases hb : b = x
    · simp [hb]
    · have hx : x ∈ l := by
        rcases List.mem_cons.mp h with rfl | h'
        · exact absurd rfl hb
        · exact h'
      simp [hb, ih hx]

/-- The index of a present element is within bounds. -/
theorem indexOf_lt_len {x : List Char} {l : List (List Char)} (h : x ∈ l) :
    l.indexOf x < l.length := by
  induction l with
  | nil => cases h
  | cons b l ih =>
    rw [List.indexOf_cons]
    by_cases hb : b = x
    · simp [hb]
    · have hx : x ∈ l := by
        rcases List.mem_cons.mp h with rfl | h'
        · exact absurd rfl hb
        · exact h'
      have hbe : (b == x) = false := by simp [hb]
      rw [hbe]
      simpa using Nat.succ_lt_succ (ih hx)

/-- Appending one word to the token list does not move the position or the
lookback window of a first token present among the original words, and a first
token absent there can newly appear only as the appended word itself; so the
negation test of an already-counted pattern is unchanged provided the appended
word does not occur in the original text (its tokens occur there). -/
theorem posOk_extend {t w p : List Char} (hnotin : ¬ w <:+: t ++ [' '])
    (hsub : p <:+: t ++ [' '])
    (h : posOk (wordsOf (t ++ [' '])) p = true) :
    posOk (wordsOf (t ++ [' ']) ++ [w]) p = true := by
  unfold posOk firstTokPos at h ⊢
  by_cases hmem : firstTok p ∈ wordsOf (t ++ [' '])
  · rw [if_pos hmem] at h
    rw [if_pos (List.mem_append.mpr (Or.inl hmem))]
    have h' : (! detectNegation (wordsOf (t ++ [' ']))
        ((wordsOf (t ++ [' '])).indexOf (firstTok p))) = true := h
    show (! detectNegation (wordsOf (t ++ [' ']) ++ [w])
        ((wordsOf (t ++ [' ']) ++ [w]).indexOf (firstTok p))) = true
    rw [indexOf_append_left hmem]
    have hlt : (wordsOf (t ++ [' '])).indexOf (firstTok p) <
        (wordsOf (t ++ [' '])).length := indexOf_lt_len hmem
    unfold detectNegation at h' ⊢
    rw [List.take_append_of_le_length (le_of_lt hlt)]
    exact h'
  · by_cases hww : firstTok p = w
    · exact absurd (hww ▸ ((firstTok_sub p).trans hsub)) hnotin
    · rw [if_neg (fun hc => by
        rcases List.mem_append.mp hc with hc' | hc'
        · exact hmem hc'
        · exact hww (List.mem_singleton.mp hc'))]

/-- Conversely, a pattern passing the negation test against the extended token
list passes it against the original one. -/
theorem posOk_restrict {t w p : List Char}
    (h : posOk (wordsOf (t ++ [' ']) ++ [w]) p = true) :
    posOk (wordsOf (t ++ [' '])) p = true := by
  unfold posOk firstTokPos at h ⊢
  by_cases hmem : firstTok p ∈ wordsOf (t ++ [' '])
  · rw [if_pos (List.mem_append.mpr (Or.inl hmem))] at h
    rw [if_pos hmem]
    have h' : (! detectNegation (wordsOf (t ++ [' ']) ++ [w])
        ((wordsOf (t ++ [' ']) ++ [w]).indexOf (firstTok p))) = true := h
    show (! detectNegation (wordsOf (t ++ [' ']))
        ((wordsOf (t ++ [' '])).indexOf (firstTok p))) = true
    rw [indexOf_append_left hmem] at h'
    have hlt : (wordsOf (t ++ [' '])).indexOf (firstTok p) <
        (wordsOf (t ++ [' '])).length := indexOf_lt_len hmem
    unfold detectNegation at h' ⊢
    rw [List.take_append_of_le_length (le_of_lt hlt)] at h'
    exact h'
  · rw [if_neg hmem]

/-- A CRITICAL/HIGH pattern counted against the original text is counted
against the text extended with a word not occurring in the original text. -/
theorem condFiltered_extend {t w p : List Char}
    (hw : w ≠ []) (hsp : ' ' ∉ w) (hprep : w.map prepChar = w)
    (hnotin : ¬ w <:+: t ++ [' '])
    (hcond : condFiltered (t ++ [' ']) (wordsOf (t ++ [' '])) p = true) :
    condFiltered (t ++ ' ' :: (w ++ [' ']))
      (wordsOf (t ++ ' ' :: (w ++ [' ']))) p = true := by
  rw [wordsOf_append_word t w hw hsp hprep]
  simp only [condFiltered, Bool.and_eq_true, decide_eq_true_eq] at hcond ⊢
  refine ⟨?_, posOk_extend hnotin hcond.1 hcond.2⟩
  have h2 : p <:+: (t ++ [' ']) ++ (w ++ [' ']) := sub_app_right _ hcond.1
  simpa [List.append_assoc] using h2

/-- A CRITICAL/HIGH pattern counted against the extended text was counted
against the original text, provided it is safe against the appended word. -/
theorem condFiltered_restrict {t w p : List Char}
    (hw : w ≠ []) (hsp : ' ' ∉ w) (hprep : w.map prepChar = w)
    (hsafe : extSafe p (w ++ [' ']))
    (hcond : condFiltered (t ++ ' ' :: (w ++ [' ']))
      (wordsOf (t ++ ' ' :: (w ++ [' ']))) p = true) :
    condFiltered (t ++ [' ']) (wordsOf (t ++ [' '])) p = true := by
  rw [wordsOf_append_word t w hw hsp hprep] at hcond
  simp only [condFiltered, Bool.and_eq_true, decide_eq_true_eq] at hcond ⊢
  exact ⟨(sub_ext_iff hsafe).mp hcond.1, posOk_restrict hcond.2⟩

/-- A MEDIUM pattern matched in the original text is matched in the extended
text. -/
theorem condPlain_extend {t w p : List Char}
    (hcond : condPlain (t ++ [' ']) p = true) :
    condPlain (t ++ ' ' :: (w ++ [' '])) p = true := by
  simp only [condPlain, decide_eq_true_eq] at hcond ⊢
  have h2 : p <:+: (t ++ [' ']) ++ (w ++ [' ']) := sub_app_right _ hcond
  simpa [List.append_assoc] using h2

/-- A MEDIUM pattern matched in the extended text was matched in the original
text, provided it is safe against the appended word. -/
theorem condPlain_restrict {t w p : List Char} (hsafe : extSafe p (w ++ [' ']))
    (hcond : condPlain (t ++ ' ' :: (w ++ [' '])) p = true) :
    condPlain (t ++ [' ']) p = true := by
  simp only [condPlain, decide_eq_true_eq] at hcond ⊢
  exact (sub_ext_iff hsafe).mp hcond

/-- A tier scan's score is non-negative when the weight is. -/
theorem tierScan_nonneg {cond : List Char → Bool} {pre : List Char} {wt : ℚ}
    (hwt : 0 ≤ wt) (entries : List (List Char)) :
    0 ≤ (tierScan cond pre wt entries).1 := by
  induction entries with
  | nil => exact le_refl 0
  | cons q qs ih =>
    rw [tierScan_cons]
    by_cases hq : cond q = true
    · rw [if_pos hq]
      exact add_nonneg hwt ih
    · rw [if_neg hq]
      exact ih

/-- Pointwise-weaker counting conditions give a smaller tier score. -/
theorem tierScan_le {c c' : List Char → Bool} {pre pre' : List Char} {wt : ℚ}
    (hwt : 0 ≤ wt) (entries : List (List Char))
    (himp : ∀ p ∈ entries, c p = true → c' p = true) :
    (tierScan c pre wt entries).1 ≤ (tierScan c' pre' wt entries).1 := by
  induction entries with
  | nil => exact le_refl 0
  | cons q qs ih =>
    have ih' := ih (fun p hp => himp p (List.mem_cons_of_mem q hp))
    rw [tierScan_cons, tierScan_cons]
    by_cases hq : c q = true
    · rw [if_pos hq, if_pos (himp q (List.mem_cons_self q qs) hq)]
      exact add_le_add_left ih' wt
    · rw [if_neg hq]
      by_cases hq' : c' q = true
      · rw [if_pos hq']
        exact le_trans ih' (le_add_of_nonneg_left hwt)
      · rw [if_neg hq']
        exact ih'

/-- The pattern score alone, with the let-bindings spelled out. -/
theorem calcPatternScore_fst (text : List Char) (ws : List (List Char)) :
    (calcPatternScore text ws).1 =
      (tierScan (condFiltered text ws) "CRITICAL:".toList 10 criticalPatterns).1 +
      (tierScan (condFiltered text ws) "HIGH:".toList 6 highPatterns).1 +
      (tierScan (condPlain text) "MEDIUM:".toList 3 mediumPatterns).1 := rfl

/-- The pattern score is non-negative. -/
theorem calcPatternScore_nonneg (text : List Char) (ws : List (List Char)) :
    0 ≤ (calcPatternScore text ws).1 := by
  rw [calcPatternScore_fst]
  have h1 := @tierScan_nonneg (condFiltered text ws) "CRITICAL:".toList 10
    (by norm_num) criticalPatterns
  have h2 := @tierScan_nonneg (condFiltered text ws) "HIGH:".toList 6
    (by norm_num) highPatterns
  have h3 := @tierScan_nonneg (condPlain text) "MEDIUM:".toList 3
    (by norm_num) mediumPatterns
  linarith

/-- Pattern-score comparison from per-tier condition implications. -/
theorem calcPatternScore_le {text text' : List Char} {ws ws' : List (List Char)}
    (hcf : ∀ p ∈ criticalPatterns,
      condFiltered text ws p = true → condFiltered text' ws' p = true)
    (hhf : ∀ p ∈ highPatterns,
      condFiltered text ws p = true → condFiltered text' ws' p = true)
    (hmf : ∀ p ∈ mediumPatterns, condPlain text p = true → condPlain text' p = true) :
    (calcPatternScore text ws).1 ≤ (calcPatternScore text' ws').1 := by
  rw [calcPatternScore_fst, calcPatternScore_fst]
  have h1 := @tierScan_le (condFiltered text ws) (condFiltered text' ws')
    "CRITICAL:".toList "CRITICAL:".toList 10 (by norm_num) criticalPatterns hcf
  have h2 := @tierScan_le (condFiltered text ws) (condFiltered text' ws')
    "HIGH:".toList "HIGH:".toList 6 (by norm_num) highPatterns hhf
  have h3 := @tierScan_le (condPlain text) (condPlain text')
    "MEDIUM:".toList "MEDIUM:".toList 3 (by norm_num) mediumPatterns hmf
  linarith

/-- Unfolding one entry of a modifier fold. -/
theorem modsFold_cons (e : ModEntry) (es : List ModEntry) (text : List Char)
    (acc : ℚ × List (List Char)) :
    modsFold (e :: es) text acc =
      modsFold es text
        (if e.key <:+: text then (acc.1 * e.mult, acc.2 ++ [e.tag]) else acc) := rfl

/-- Modifier-fold comparison against a larger text: matches can only be gained,
and every gained match carries a multiplier of at least 1, so the fold on the
larger text from a larger non-negative base dominates. -/
theorem modsFold_le_up (es : List ModEntry) (tS tB : List Char)
    (hpos : ∀ e ∈ es, 0 < e.mult)
    (himp : ∀ e ∈ es, (e.key <:+: tS) → (e.key <:+: tB))
    (hnew : ∀ e ∈ es, (e.key <:+: tB) → ¬ (e.key <:+: tS) → 1 ≤ e.mult) :
    ∀ accS accB : ℚ × List (List Char), 0 ≤ accS.1 → accS.1 ≤ accB.1 →
      0 ≤ (modsFold es tS accS).1 ∧ (modsFold es tS accS).1 ≤ (modsFold es tB accB).1 := by
  induction es with
  | nil =>
    intro accS accB h0 hle
    exact ⟨h0, hle⟩
  | cons e es ih =>
    intro accS accB h0 hle
    have ih' := ih (fun x hx => hpos x (List.mem_cons_of_mem e hx))
      (fun x hx => himp x (List.mem_cons_of_mem e hx))
      (fun x hx => hnew x (List.mem_cons_of_mem e hx))
    have hm := hpos e (List.mem_cons_self e es)
    rw [modsFold_cons, modsFold_cons]
    by_cases hS : e.key <:+: tS
    · rw [if_pos hS, if_pos (himp e (List.mem_cons_self e es) hS)]
      exact ih' _ _ (by simpa using mul_nonneg h0 hm.le)
        (by simpa using mul_le_mul_of_nonneg_right hle hm.le)
    · rw [if_neg hS]
      by_cases hB : e.key <:+: tB
      · rw [if_pos hB]
        have h1 := hnew e (List.mem_cons_self e es) hB hS
        have h2 : accB.1 ≤ accB.1 * e.mult :=
          le_mul_of_one_le_right (le_trans h0 hle) h1
        exact ih' _ _ h0 (by simpa using le_trans hle h2)
      · rw [if_neg hB]
        exact ih' _ _ h0 hle

/-- Modifier-fold comparison on a shrunk text: matches can only be lost, and
every lost match carries a multiplier of at most 1, so the fold on the larger
text from a smaller non-negative base is dominated. -/
theorem modsFold_le_down (es : List ModEntry) (tS tB : List Char)
    (hpos : ∀ e ∈ es, 0 < e.mult)
    (himp : ∀ e ∈ es, (e.key <:+: tS) → (e.key <:+: tB))
    (hnew : ∀ e ∈ es, (e.key <:+: tB) → ¬ (e.key <:+: tS) → e.mult ≤ 1) :
    ∀ accB accS : ℚ × List (List Char), 0 ≤ accB.1 → accB.1 ≤ accS.1 →
      0 ≤ (modsFold es tB accB).1 ∧ (modsFold es tB accB).1 ≤ (modsFold es tS accS).1 := by
  induction es with
  | nil =>
    intro accB accS h0 hle
    exact ⟨h0, hle⟩
  | cons e es ih =>
    intro accB accS h0 hle
    have ih' := ih (fun x hx => hpos x (List.mem_cons_of_mem e hx))
      (fun x hx => himp x (List.mem_cons_of_mem e hx))
      (fun x hx => hnew x (List.mem_cons_of_mem e hx))
    have hm := hpos e (List.mem_cons_self e es)
    rw [modsFold_cons, modsFold_cons]
    by_cases hS : e.key <:+: tS
    · rw [if_pos hS, if_pos (himp e (List.mem_cons_self e es) hS)]
      exact ih' _ _ (by simpa using mul_nonneg h0 hm.le)
        (by simpa using mul_le_mul_of_nonneg_right hle hm.le)
    · rw [if_neg hS]
      by_cases hB : e.key <:+: tB
      · rw [if_pos hB]
        have h1 := hnew e (List.mem_cons_self e es) hB hS
        have h2 : accB.1 * e.mult ≤ accB.1 := mul_le_of_le_one_right h0 h1
        exact ih' _ _ (by simpa using mul_nonneg h0 hm.le)
          (by simpa using le_trans h2 hle)
      · rw [if_neg hB]
        exact ih' _ _ h0 hle

/-- Unfolding one entry of a max-of-matches fold. -/
theorem maxFold_cons (e : List Char × ℚ) (es : List (List Char × ℚ)) (text : List Char)
    (acc : ℚ × List Char) :
    maxFold (e :: es) text acc =
      maxFold es text (if e.1 <:+: text ∧ acc.1 < e.2 then (e.2, e.1) else acc) := rfl

/-- A max-of-matches fold can only grow when the text grows. -/
theorem maxFold_le (es : List (List Char × ℚ)) (tS tB : List Char)
    (himp : ∀ e ∈ es, e.1 <:+: tS → e.1 <:+: tB) :
    ∀ accS accB : ℚ × List Char, accS.1 ≤ accB.1 →
      (maxFold es tS accS).1 ≤ (maxFold es tB accB).1 := by
  induction es with
  | nil =>
    intro _ _ h
    exact h
  | cons e es ih =>
    intro accS accB hle
    have ih' := ih (fun x hx => himp x (List.mem_cons_of_mem e hx))
    rw [maxFold_cons, maxFold_cons]
    by_cases hS : e.1 <:+: tS ∧ accS.1 < e.2
    · rw [if_pos hS]
      by_cases hB2 : accB.1 < e.2
      · rw [if_pos ⟨himp e (List.mem_cons_self e es) hS.1, hB2⟩]
        exact ih' _ _ (le_refl _)
      · rw [if_neg (fun hc => hB2 hc.2)]
        exact ih' _ _ (by simpa using not_lt.mp hB2)
    · rw [if_neg hS]
      by_cases hB : e.1 <:+: tB ∧ accB.1 < e.2
      · rw [if_pos hB]
        exact ih' _ _ (by simpa using le_trans hle hB.2.le)
      · rw [if_neg hB]
        exact ih' _ _ hle

/-- A max-of-matches fold only depends on which entries match. -/
theorem maxFold_congr (es : List (List Char × ℚ)) (t t' : List Char)
    (hiff : ∀ e ∈ es, (e.1 <:+: t) ↔ (e.1 <:+: t')) :
    ∀ acc, maxFold es t acc = maxFold es t' acc := by
  induction es with
  | nil =>
    intro _
    rfl
  | cons e es ih =>
    intro acc
    have ih' := ih (fun x hx => hiff x (List.mem_cons_of_mem e hx))
    rw [maxFold_cons, maxFold_cons]
    by_cases h : e.1 <:+: t ∧ acc.1 < e.2
    · rw [if_pos h, if_pos ⟨(hiff e (List.mem_cons_self e es)).mp h.1, h.2⟩]
      exact ih' _
    · rw [if_neg h, if_neg (fun hc => h ⟨(hiff e (List.mem_cons_self e es)).mpr hc.1, hc.2⟩)]
      exact ih' _

/-- An urgency fold can only grow when the text grows. -/
theorem urgFold_le (cls : List UrgClass) (tS tB : List Char)
    (hb : ∀ cl ∈ cls, 0 ≤ cl.bonus)
    (himp : ∀ cl ∈ cls, ∀ ph ∈ cl.phrases,
      wordOccurs ph tS = true → wordOccurs ph tB = true) :
    0 ≤ (urgFold cls tS).1 ∧ (urgFold cls tS).1 ≤ (urgFold cls tB).1 := by
  induction cls with
  | nil => exact ⟨le_refl 0, le_refl 0⟩
  | cons c cs ih =>
    obtain ⟨ih0, ihle⟩ := ih (fun x hx => hb x (List.mem_cons_of_mem c hx))
      (fun x hx => himp x (List.mem_cons_of_mem c hx))
    have hbc := hb c (List.mem_cons_self c cs)
    rw [urgFold_cons, urgFold_cons]
    by_cases hS : c.phrases.any (fun p => wordOccurs p tS)
    · have hB : c.phrases.any (fun p => wordOccurs p tB) = true := by
        simp only [List.any_eq_true] at hS ⊢
        obtain ⟨ph, hph, hocc⟩ := hS
        exact ⟨ph, hph, himp c (List.mem_cons_self c cs) ph hph hocc⟩
      rw [if_pos hS, if_pos hB]
      exact ⟨by simpa using add_nonneg hbc ih0, by simpa using add_le_add_left ihle c.bonus⟩
    · rw [if_neg hS]
      by_cases hB : c.phrases.any (fun p => wordOccurs p tB)
      · rw [if_pos hB]
        refine ⟨ih0, le_trans ihle ?_⟩
        show (urgFold cs tB).1 ≤ c.bonus + (urgFold cs tB).1
        linarith
      · rw [if_neg hB]
        exact ⟨ih0, ihle⟩

/-- An urgency fold only depends on which classes match. -/
theorem urgFold_congr (cls : List UrgClass) (t t' : List Char)
    (hiff : ∀ cl ∈ cls, ∀ ph ∈ cl.phrases, wordOccurs ph t = wordOccurs ph t') :
    urgFold cls t = urgFold cls t' := by
  induction cls with
  | nil => rfl
  | cons c cs ih =>
    have ih' := ih (fun x hx => hiff x (List.mem_cons_of_mem c hx))
    have hgen : ∀ ps : List (List Char), (∀ ph ∈ ps, wordOccurs ph t = wordOccurs ph t') →
        (ps.any fun p => wordOccurs p t) = (ps.any fun p => wordOccurs p t') := by
      intro ps
      induction ps with
      | nil => intro _; rfl
      | cons q qs ihq =>
        intro h
        simp only [List.any_cons]
        rw [h q (List.mem_cons_self q qs),
          ihq (fun p hp => h p (List.mem_cons_of_mem q hp))]
    have hc := hgen c.phrases (hiff c (List.mem_cons_self c cs))
    rw [urgFold_cons, urgFold_cons, ih', hc]

/-- A word-boundary occurrence is in particular a plain infix occurrence. -/
theorem wordOccursFrom_sub {p : List Char} (hp : p ≠ []) :
    ∀ (u : List Char) (prev : Option Char), wordOccursFrom p prev u = true → p <:+: u := by
  intro u
  induction u with
  | nil =>
    intro prev h
    simp only [wordOccursFrom, matchHere, Bool.and_eq_true, decide_eq_true_eq] at h
    exact absurd (List.prefix_nil.mp h.1.2) hp
  | cons c rest ih =>
    intro prev h
    simp only [wordOccursFrom, Bool.or_eq_true] at h
    rcases h with h | h
    · simp only [matchHere, Bool.and_eq_true, decide_eq_true_eq] at h
      exact pfx_sub h.1.2
    · exact sub_cons c (ih (some c) h)

/-- A word-boundary match survives appending to a text that ends in a
separator, for a phrase that does not end in a separator. -/
theorem wordOccursFrom_append {p : List Char} (ext : List Char) (hp : p ≠ [])
    (hlast : p.getLast? ≠ some ' ') :
    ∀ (u : List Char) (prev : Option Char), u.getLast? = some ' ' →
      wordOccursFrom p prev u = true → wordOccursFrom p prev (u ++ ext) = true := by
  intro u
  induction u with
  | nil =>
    intro prev hu _
    simp at hu
  | cons c rest ih =>
    intro prev hu h
    rw [List.cons_append]
    simp only [wordOccursFrom, Bool.or_eq_true] at h ⊢
    rcases h with h | h
    · left
      simp only [matchHere, Bool.and_eq_true, decide_eq_true_eq] at h ⊢
      obtain ⟨⟨hprev, hpre⟩, hb⟩ := h
      have hlen : p.length ≤ (c :: rest).length := hpre.length_le
      rcases lt_or_eq_of_le hlen with hlt | heq
      · refine ⟨⟨hprev, ?_⟩, ?_⟩
        · have h2 := hpre.trans (List.prefix_append (c :: rest) ext)
          simpa using h2
        · rw [← List.cons_append, List.drop_append_of_le_length hlen]
          cases hdrop : (c :: rest).drop p.length with
          | nil =>
            have h3 := congrArg List.length hdrop
            simp at h3 hlt
            omega
          | cons d ds =>
            rw [hdrop] at hb
            simpa using hb
      · exfalso
        have hpe : p = c :: rest := hpre.eq_of_length heq
        rw [hpe] at hlast
        exact hlast hu
    · cases rest with
      | nil =>
        exfalso
        simp only [wordOccursFrom, matchHere, Bool.and_eq_true, decide_eq_true_eq] at h
        exact hp (List.prefix_nil.mp h.1.2)
      | cons d ds =>
        right
        rw [List.getLast?_cons_cons] at hu
        exact ih (some c) hu h

/-- A word-boundary match in a text extended past a separator pulls back to the
original text, for a phrase that is safe against the extension. -/
theorem wordOccursFrom_restrict {p ext : List Char} (hp : p ≠ [])
    (hsafe : extSafe p ext) :
    ∀ (u : List Char) (prev : Option Char), u.getLast? = some ' ' →
      wordOccursFrom p prev (u ++ ext) = true → wordOccursFrom p prev u = true := by
  intro u
  induction u with
  | nil =>
    intro prev hu _
    simp at hu
  | cons c rest ih =>
    intro prev hu h
    rw [List.cons_append] at h
    simp only [wordOccursFrom, Bool.or_eq_true] at h ⊢
    rcases h with h | h
    · simp only [matchHere, Bool.and_eq_true, decide_eq_true_eq] at h
      obtain ⟨⟨hprev, hpre⟩, hb⟩ := h
      have hpre' : p <+: (c :: rest) ++ ext := by simpa using hpre
      rcases lt_trichotomy p.length (c :: rest).length with hlt | heq | hgt
      · left
        have hpcr : p <+: c :: rest :=
          List.prefix_of_prefix_length_le hpre' (List.prefix_append _ _) hlt.le
        simp only [matchHere, Bool.and_eq_true, decide_eq_true_eq]
        refine ⟨⟨hprev, hpcr⟩, ?_⟩
        rw [← List.cons_append, List.drop_append_of_le_length hlt.le] at hb
        cases hdrop : (c :: rest).drop p.length with
        | nil =>
          have h3 := congrArg List.length hdrop
          simp at h3 hlt
          omega
        | cons d ds =>
          rw [hdrop] at hb
          simpa using hb
      · left
        have hpe : p = c :: rest :=
          (List.prefix_of_prefix_length_le hpre' (List.prefix_append _ _)
            heq.le).eq_of_length heq
        simp only [matchHere, Bool.and_eq_true, decide_eq_true_eq]
        refine ⟨⟨hprev, ?_⟩, ?_⟩
        · rw [hpe]
        · rw [hpe, List.drop_length]
          rfl
      · exfalso
        obtain ⟨r, hr⟩ := hpre'
        have hjle : (c :: rest).length ≤ p.length := hgt.le
        have htake : p.take (c :: rest).length = c :: rest := by
          have h1 := congrArg (List.take (c :: rest).length) hr
          rw [List.take_append_of_le_length hjle, List.take_left] at h1
          exact h1
        have hdropj : p.drop (c :: rest).length ++ r = ext := by
          have h1 := congrArg (List.drop (c :: rest).length) hr
          rw [List.drop_append_of_le_length hjle, List.drop_left] at h1
          exact h1
        have hj1 : (c :: rest).length - 1 < p.length := by
          simp at hgt ⊢
          omega
        have hlastp : (c :: rest)[(c :: rest).length - 1]? = some ' ' := by
          rw [← List.getLast?_eq_getElem?]
          exact hu
        have h1 : (p.take (c :: rest).length)[(c :: rest).length - 1]? =
            p[(c :: rest).length - 1]? := by
          rw [List.getElem?_take, if_pos (by simp only [List.length_cons]; omega)]
        have hgetp : p[(c :: rest).length - 1]? = some ' ' := by
          rw [← h1, htake]
          exact hlastp
        have hsp : p.getD ((c :: rest).length - 1) ' ' = ' ' := by
          rw [List.getD_eq_getElem?_getD, hgetp]
          rfl
        have hdsub : p.drop ((c :: rest).length - 1 + 1) <+: ext := by
          rw [show (c :: rest).length - 1 + 1 = (c :: rest).length from by simp]
          exact ⟨r, hdropj⟩
        exact hsafe.2 ((c :: rest).length - 1) hj1 ⟨hsp, hdsub⟩
    · cases rest with
      | nil =>
        exfalso
        exact hsafe.1 (wordOccursFrom_sub hp ext (some c) h)
      | cons d ds =>
        right
        rw [List.getLast?_cons_cons] at hu
        exact ih (some c) hu h

/-- Word-boundary occurrence in a text ending in a separator survives appending
a further word, for a phrase not ending in a separator. -/
theorem wordOccurs_extend {p t w : List Char} (hp : p ≠ [])
    (hlast : p.getLast? ≠ some ' ')
    (h : wordOccurs p (t ++ [' ']) = true) :
    wordOccurs p (t ++ ' ' :: (w ++ [' '])) = true := by
  have h2 := wordOccursFrom_append (w ++ [' ']) hp hlast (t ++ [' ']) none
    (List.getLast?_concat t) h
  unfold wordOccurs
  rw [show t ++ ' ' :: (w ++ [' ']) = (t ++ [' ']) ++ (w ++ [' ']) from by simp]
  exact h2

/-- Word-boundary occurrence in the extended text pulls back to the original
text, for a phrase safe against the appended word. -/
theorem wordOccurs_restrict {p t w : List Char} (hp : p ≠ [])
    (hsafe : extSafe p (w ++ [' ']))
    (h : wordOccurs p (t ++ ' ' :: (w ++ [' '])) = true) :
    wordOccurs p (t ++ [' ']) = true := by
  unfold wordOccurs at h ⊢
  rw [show t ++ ' ' :: (w ++ [' ']) = (t ++ [' ']) ++ (w ++ [' ']) from by simp] at h
  exact wordOccursFrom_restrict hp hsafe (t ++ [' ']) none (List.getLast?_concat t) h

/-- An infix of the original text is an infix of the extended text. -/
theorem sub_extend {p t : List Char} (w : List Char) (h : p <:+: t ++ [' ']) :
    p <:+: t ++ ' ' :: (w ++ [' ']) := by
  have h2 : p <:+: (t ++ [' ']) ++ (w ++ [' ']) := sub_app_right _ h
  simpa [List.append_assoc] using h2

/-- A max-of-matches fold over entries none of which matches keeps its
accumulator. -/
theorem maxFold_none (es : List (List Char × ℚ)) (text : List Char)
    (h : ∀ e ∈ es, ¬ e.1 <:+: text) : ∀ acc, maxFold es text acc = acc := by
  induction es with
  | nil =>
    intro _
    rfl
  | cons e es ih =>
    intro acc
    rw [maxFold_cons, if_neg (fun hc => h e (List.mem_cons_self e es) hc.1)]
    exact ih (fun x hx => h x (List.mem_cons_of_mem e hx)) acc

/-- A modifier fold over entries none of which matches keeps its accumulator. -/
theorem modsFold_none (es : List ModEntry) (text : List Char)
    (h : ∀ e ∈ es, ¬ e.key <:+: text) : ∀ acc, modsFold es text acc = acc := by
  induction es with
  | nil =>
    intro _
    rfl
  | cons e es ih =>
    intro acc
    rw [modsFold_cons, if_neg (h e (List.mem_cons_self e es))]
    exact ih (fun x hx => h x (List.mem_cons_of_mem e hx)) acc

/-- The empty modifier fold. -/
theorem modsFold_nil (text : List Char) (acc : ℚ × List (List Char)) :
    modsFold [] text acc = acc := rfl

/-- The intensifier keywords are non-empty space-free lower-case words fixed
by the preprocessing character map. -/
theorem intKeyFacts : ∀ w ∈ intensifiers.map ModEntry.key,
    w ≠ [] ∧ ' ' ∉ w ∧ w.map prepChar = w ∧ lowerTxt w = w := by decide

/-- The diminisher keywords are non-empty space-free lower-case words fixed by
the preprocessing character map. -/
theorem dimKeyFacts : ∀ w ∈ diminishers.map ModEntry.key,
    w ≠ [] ∧ ' ' ∉ w ∧ w.map prepChar = w ∧ lowerTxt w = w := by decide

/-- Every intensifier multiplier is positive and at least 1. -/
theorem intMultFacts : ∀ e ∈ intensifiers, 0 < e.mult ∧ 1 ≤ e.mult := by decide

/-- Every diminisher multiplier is positive and at most 1. -/
theorem dimMultFacts : ∀ e ∈ diminishers, 0 < e.mult ∧ e.mult ≤ 1 := by decide

/-- Urgency bonuses are non-negative and urgency phrases are non-empty and do
not end in a separator. -/
theorem urgFacts : ∀ cl ∈ urgencyClasses,
    0 ≤ cl.bonus ∧ ∀ ph ∈ cl.phrases, ph ≠ [] ∧ ph.getLast? ≠ some ' ' := by decide

/-- No diminisher keyword occurs in, or spans into, any appended intensifier
word. -/
theorem intDimSafe : ∀ w ∈ intensifiers.map ModEntry.key,
    ∀ e ∈ diminishers, extSafe e.key (w ++ [' ']) := by decide

/-- No pattern-table keyword occurs in, or spans into, any appended diminisher
word other than `occasionally`. -/
theorem dimSafePat : ∀ w ∈ diminishers.map ModEntry.key,
    w ≠ "occasionally".toList →
    ∀ p ∈ criticalPatterns ++ highPatterns ++ mediumPatterns,
      extSafe p (w ++ [' ']) := by decide

/-- No intensifier keyword occurs in, or spans into, any appended diminisher
word. -/
theorem dimIntSafe : ∀ w ∈ diminishers.map ModEntry.key,
    ∀ e ∈ intensifiers, extSafe e.key (w ++ [' ']) := by decide

/-- No system-impact keyword occurs in, or spans into, any appended diminisher
word. -/
theorem dimSysSafe : ∀ w ∈ diminishers.map ModEntry.key,
    ∀ e ∈ sysEntries, extSafe e.1 (w ++ [' ']) := by decide

/-- No scope-impact keyword occurs in, or spans into, any appended diminisher
word. -/
theorem dimScopeSafe : ∀ w ∈ diminishers.map ModEntry.key,
    ∀ e ∈ scopeEntries, extSafe e.1 (w ++ [' ']) := by decide

/-- No urgency phrase occurs in, or spans into, any appended diminisher
word. -/
theorem dimUrgSafe : ∀ w ∈ diminishers.map ModEntry.key,
    ∀ cl ∈ urgencyClasses, ∀ ph ∈ cl.phrases, extSafe ph (w ++ [' ']) := by decide

/-- A request carrying only a description, as `analyze` receives it in the
monotonicity scenario. -/
def reqOf (d : List Char) : RequestData := ⟨some d, none, none, none, none⟩

/-- The exact final score before rounding, as `analyze` assembles it:
modified pattern score times system and scope multipliers, plus the urgency
bonus. -/
def rawScore (text : List Char) : ℚ :=
  (applyModifiers text (calcPatternScore text (wordsOf text)).1).1 *
    (calcSystemImpact text).1 * (calcScopeImpact text).1 + (detectUrgency text).1

/-- The score of a description-only request is the rounded raw score of the
lower-cased description followed by the separator that joins the empty system
field. -/
theorem scoreOf_analyze (d now : List Char) :
    scoreOf (analyze (reqOf d) now) = round2 (rawScore (lowerTxt d ++ [' '])) := rfl

/-- Lower-casing the description extended by an already-lower-case word. -/
theorem lowerTxt_extend (dsc w : List Char) (hw : lowerTxt w = w) :
    lowerTxt (dsc ++ ' ' :: w) ++ [' '] = lowerTxt dsc ++ ' ' :: (w ++ [' ']) := by
  unfold lowerTxt at hw ⊢
  rw [List.map_append, List.map_cons, hw]
  have h1 : lowerChar ' ' = ' ' := rfl
  rw [h1, List.append_assoc]
  rfl

/-- Appending a word that is not already present and into which no diminisher
keyword can leak never lowers the raw score, when every newly matching
modifier is an intensifier-style multiplier of at least 1. -/
theorem rawScore_le_extend (t w : List Char)
    (hw : w ≠ []) (hsp : ' ' ∉ w) (hprep : w.map prepChar = w)
    (hnotin : ¬ w <:+: t ++ [' '])
    (hdim : ∀ e ∈ diminishers, extSafe e.key (w ++ [' '])) :
    rawScore (t ++ [' ']) ≤ rawScore (t ++ ' ' :: (w ++ [' '])) := by
  have hbase : (calcPatternScore (t ++ [' ']) (wordsOf (t ++ [' ']))).1 ≤
      (calcPatternScore (t ++ ' ' :: (w ++ [' ']))
        (wordsOf (t ++ ' ' :: (w ++ [' '])))).1 :=
    calcPatternScore_le
      (fun _ _ hc => condFiltered_extend hw hsp hprep hnotin hc)
      (fun _ _ hc => condFiltered_extend hw hsp hprep hnotin hc)
      (fun _ _ hc => condPlain_extend hc)
  have hbase0 : 0 ≤ (calcPatternScore (t ++ [' ']) (wordsOf (t ++ [' ']))).1 :=
    calcPatternScore_nonneg _ _
  have hint := modsFold_le_up intensifiers (t ++ [' ']) (t ++ ' ' :: (w ++ [' ']))
    (fun e he => (intMultFacts e he).1)
    (fun _ _ hs => sub_extend w hs)
    (fun e he _ _ => (intMultFacts e he).2)
    ((calcPatternScore (t ++ [' ']) (wordsOf (t ++ [' ']))).1, [])
    ((calcPatternScore (t ++ ' ' :: (w ++ [' ']))
      (wordsOf (t ++ ' ' :: (w ++ [' '])))).1, [])
    hbase0 hbase
  have hmods := modsFold_le_up diminishers (t ++ [' ']) (t ++ ' ' :: (w ++ [' ']))
    (fun e he => (dimMultFacts e he).1)
    (fun _ _ hs => sub_extend w hs)
    (fun e he hB hnS => absurd ((sub_ext_iff (hdim e he)).mp hB) hnS)
    _ _ hint.1 hint.2
  have hsys1 : (1 : ℚ) ≤ (calcSystemImpact (t ++ [' '])).1 :=
    maxFold_ge_acc sysEntries (t ++ [' ']) (1, "general".toList)
  have hsys : (calcSystemImpact (t ++ [' '])).1 ≤
      (calcSystemImpact (t ++ ' ' :: (w ++ [' ']))).1 :=
    maxFold_le sysEntries (t ++ [' ']) (t ++ ' ' :: (w ++ [' ']))
      (fun _ _ hs => sub_extend w hs) (1, "general".toList) (1, "general".toList)
      (le_refl 1)
  have hsc1 : (1 : ℚ) ≤ (calcScopeImpact (t ++ [' '])).1 :=
    maxFold_ge_acc scopeEntries (t ++ [' ']) (1, "single user".toList)
  have hsc : (calcScopeImpact (t ++ [' '])).1 ≤
      (calcScopeImpact (t ++ ' ' :: (w ++ [' ']))).1 :=
    maxFold_le scopeEntries (t ++ [' ']) (t ++ ' ' :: (w ++ [' ']))
      (fun _ _ hs => sub_extend w hs) (1, "single user".toList)
      (1, "single user".toList) (le_refl 1)
  have hurg := urgFold_le urgencyClasses (t ++ [' ']) (t ++ ' ' :: (w ++ [' ']))
    (fun cl hcl => (urgFacts cl hcl).1)
    (fun cl hcl ph hph hocc =>
      wordOccurs_extend ((urgFacts cl hcl).2 ph hph).1 ((urgFacts cl hcl).2 ph hph).2 hocc)
  unfold rawScore
  have hmS : 0 ≤ (applyModifiers (t ++ [' '])
      (calcPatternScore (t ++ [' ']) (wordsOf (t ++ [' ']))).1).1 := hmods.1
  have hmSB : (applyModifiers (t ++ [' '])
        (calcPatternScore (t ++ [' ']) (wordsOf (t ++ [' ']))).1).1 ≤
      (applyModifiers (t ++ ' ' :: (w ++ [' ']))
        (calcPatternScore (t ++ ' ' :: (w ++ [' ']))
          (wordsOf (t ++ ' ' :: (w ++ [' '])))).1).1 := hmods.2
  have h1 : (applyModifiers (t ++ [' '])
        (calcPatternScore (t ++ [' ']) (wordsOf (t ++ [' ']))).1).1 *
        (calcSystemImpact (t ++ [' '])).1 ≤
      (applyModifiers (t ++ ' ' :: (w ++ [' ']))
        (calcPatternScore (t ++ ' ' :: (w ++ [' ']))
          (wordsOf (t ++ ' ' :: (w ++ [' '])))).1).1 *
        (calcSystemImpact (t ++ ' ' :: (w ++ [' ']))).1 :=
    mul_le_mul hmSB hsys (by linarith) (by linarith)
  have h2 := mul_le_mul h1 hsc (by linarith)
    (mul_nonneg (by linarith) (by linarith))
  exact add_le_add h2 hurg.2

/-- Appending a word that no table keyword or urgency phrase can occur in or
span into never raises the raw score, when every newly matching modifier is a
diminisher-style multiplier of at most 1. -/
theorem rawScore_le_restrict (t w : List Char)
    (hw : w ≠ []) (hsp : ' ' ∉ w) (hprep : w.map prepChar = w)
    (hpat : ∀ p ∈ criticalPatterns ++ highPatterns ++ mediumPatterns,
      extSafe p (w ++ [' ']))
    (hintS : ∀ e ∈ intensifiers, extSafe e.key (w ++ [' ']))
    (hsysS : ∀ e ∈ sysEntries, extSafe e.1 (w ++ [' ']))
    (hscS : ∀ e ∈ scopeEntries, extSafe e.1 (w ++ [' ']))
    (hurgS : ∀ cl ∈ urgencyClasses, ∀ ph ∈ cl.phrases, extSafe ph (w ++ [' '])) :
    rawScore (t ++ ' ' :: (w ++ [' '])) ≤ rawScore (t ++ [' ']) := by
  have hbase : (calcPatternScore (t ++ ' ' :: (w ++ [' ']))
        (wordsOf (t ++ ' ' :: (w ++ [' '])))).1 ≤
      (calcPatternScore (t ++ [' ']) (wordsOf (t ++ [' ']))).1 :=
    calcPatternScore_le
      (fun p hp hc => condFiltered_restrict hw hsp hprep (hpat p (by simp [hp])) hc)
      (fun p hp hc => condFiltered_restrict hw hsp hprep (hpat p (by simp [hp])) hc)
      (fun p hp hc => condPlain_restrict (hpat p (by simp [hp])) hc)
  have hbase0 : 0 ≤ (calcPatternScore (t ++ ' ' :: (w ++ [' ']))
      (wordsOf (t ++ ' ' :: (w ++ [' '])))).1 :=
    calcPatternScore_nonneg _ _
  have hint := modsFold_le_down intensifiers (t ++ [' ']) (t ++ ' ' :: (w ++ [' ']))
    (fun e he => (intMultFacts e he).1)
    (fun _ _ hs => sub_extend w hs)
    (fun e he hB hnS => absurd ((sub_ext_iff (hintS e he)).mp hB) hnS)
    ((calcPatternScore (t ++ ' ' :: (w ++ [' ']))
      (wordsOf (t ++ ' ' :: (w ++ [' '])))).1, [])
    ((calcPatternScore (t ++ [' ']) (wordsOf (t ++ [' ']))).1, [])
    hbase0 hbase
  have hmods := modsFold_le_down diminishers (t ++ [' ']) (t ++ ' ' :: (w ++ [' ']))
    (fun e he => (dimMultFacts e he).1)
    (fun _ _ hs => sub_extend w hs)
    (fun e he _ _ => (dimMultFacts e he).2)
    _ _ hint.1 hint.2
  have hsys1 : (1 : ℚ) ≤ (calcSystemImpact (t ++ ' ' :: (w ++ [' ']))).1 :=
    maxFold_ge_acc sysEntries (t ++ ' ' :: (w ++ [' '])) (1, "general".toList)
  have hsys : (calcSystemImpact (t ++ ' ' :: (w ++ [' ']))).1 ≤
      (calcSystemImpact (t ++ [' '])).1 :=
    maxFold_le sysEntries (t ++ ' ' :: (w ++ [' '])) (t ++ [' '])
      (fun e he hs => (sub_ext_iff (hsysS e he)).mp hs) (1, "general".toList)
      (1, "general".toList) (le_refl 1)
  have hsc1 : (1 : ℚ) ≤ (calcScopeImpact (t ++ ' ' :: (w ++ [' ']))).1 :=
    maxFold_ge_acc scopeEntries (t ++ ' ' :: (w ++ [' '])) (1, "single user".toList)
  have hsc : (calcScopeImpact (t ++ ' ' :: (w ++ [' ']))).1 ≤
      (calcScopeImpact (t ++ [' '])).1 :=
    maxFold_le scopeEntries (t ++ ' ' :: (w ++ [' '])) (t ++ [' '])
      (fun e he hs => (sub_ext_iff (hscS e he)).mp hs) (1, "single user".toList)
      (1, "single user".toList) (le_refl 1)
  have hurg := urgFold_le urgencyClasses (t ++ ' ' :: (w ++ [' '])) (t ++ [' '])
    (fun cl hcl => (urgFacts cl hcl).1)
    (fun cl hcl ph hph hocc =>
      wordOccurs_restrict ((urgFacts cl hcl).2 ph hph).1 (hurgS cl hcl ph hph) hocc)
  unfold rawScore
  have hmS : 0 ≤ (applyModifiers (t ++ ' ' :: (w ++ [' ']))
      (calcPatternScore (t ++ ' ' :: (w ++ [' ']))
        (wordsOf (t ++ ' ' :: (w ++ [' '])))).1).1 := hmods.1
  have hmSB : (applyModifiers (t ++ ' ' :: (w ++ [' ']))
        (calcPatternScore (t ++ ' ' :: (w ++ [' ']))
          (wordsOf (t ++ ' ' :: (w ++ [' '])))).1).1 ≤
      (applyModifiers (t ++ [' '])
        (calcPatternScore (t ++ [' ']) (wordsOf (t ++ [' ']))).1).1 := hmods.2
  have h1 : (applyModifiers (t ++ ' ' :: (w ++ [' ']))
        (calcPatternScore (t ++ ' ' :: (w ++ [' ']))
          (wordsOf (t ++ ' ' :: (w ++ [' '])))).1).1 *
        (calcSystemImpact (t ++ ' ' :: (w ++ [' ']))).1 ≤
      (applyModifiers (t ++ [' '])
        (calcPatternScore (t ++ [' ']) (wordsOf (t ++ [' ']))).1).1 *
        (calcSystemImpact (t ++ [' '])).1 :=
    mul_le_mul hmSB hsys (by linarith) (by linarith)
  have h2 := mul_le_mul h1 hsc (by linarith)
    (mul_nonneg (by linarith) (by linarith))
  exact add_le_add h2 hurg.2

/-- C5 counterexample: `occasionally` is a diminisher word that does not occur
in the text `hello world`, yet appending it raises the score from 0 to 2.1
instead of lowering it, because the MEDIUM-tier keyword `occasional` is a
substring of the appended diminisher and adds 3 to the pattern score before
the 0.7 multiplier applies. -/
theorem C5_counterexample :
    "occasionally".toList ∈ diminishers.map ModEntry.key ∧
    ¬ "occasionally".toList <:+: lowerTxt "hello world".toList ++ [' '] ∧
    scoreOf (analyze (reqOf "hello world".toList) []) = 0 ∧
    scoreOf (analyze (reqOf ("hello world".toList ++ ' ' ::
      "occasionally".toList)) []) = mkRat 21 10 ∧
    ¬ scoreOf (analyze (reqOf ("hello world".toList ++ ' ' ::
        "occasionally".toList)) []) ≤
      scoreOf (analyze (reqOf "hello world".toList) []) := by
  have h0 : scoreOf (analyze (reqOf "hello world".toList) []) = 0 :=
    (analyze_neutral (reqOf "hello world".toList) [] "hello world".toList rfl
      (by decide) (by decide)).2.2
  have hbig : scoreOf (analyze (reqOf ("hello world".toList ++ ' ' ::
      "occasionally".toList)) []) = mkRat 21 10 := by
    rw [scoreOf_analyze]
    rw [show lowerTxt ("hello world".toList ++ ' ' :: "occasionally".toList) ++ [' '] =
      "hello world occasionally ".toList from by decide]
    unfold rawScore
    have hbase : (calcPatternScore "hello world occasionally ".toList
        (wordsOf "hello world occasionally ".toList)).1 = 3 := by
      rw [calcPatternScore_fst, tierScan_score, tierScan_score, tierScan_score,
        show criticalPatterns.countP (condFiltered "hello world occasionally ".toList
          (wordsOf "hello world occasionally ".toList)) = 0 from by decide,
        show highPatterns.countP (condFiltered "hello world occasionally ".toList
          (wordsOf "hello world occasionally ".toList)) = 0 from by decide,
        show mediumPatterns.countP
          (condPlain "hello world occasionally ".toList) = 1 from by decide]
      norm_num
    have hmods : (applyModifiers "hello world occasionally ".toList (3 : ℚ)).1 =
        3 * mkRat 7 10 := by
      show (modsFold diminishers "hello world occasionally ".toList
        (modsFold intensifiers "hello world occasionally ".toList ((3 : ℚ), []))).1 = _
      rw [modsFold_none intensifiers "hello world occasionally ".toList
        (by decide) ((3 : ℚ), [])]
      simp +decide [diminishers, modsFold_cons, modsFold_nil]
    have hsys : (calcSystemImpact "hello world occasionally ".toList).1 = 1 :=
      congrArg Prod.fst (maxFold_none sysEntries "hello world occasionally ".toList
        (by decide) (1, "general".toList))
    have hsc : (calcScopeImpact "hello world occasionally ".toList).1 = 1 :=
      congrArg Prod.fst (maxFold_none scopeEntries "hello world occasionally ".toList
        (by decide) (1, "single user".toList))
    have hurg : (detectUrgency "hello world occasionally ".toList).1 = 0 :=
      congrArg Prod.fst (detectUrgency_none "hello world occasionally ".toList
        (by decide))
    rw [hbase, hmods, hsys, hsc, hurg]
    unfold round2
    norm_num [Rat.mkRat_eq_div, round_eq]
  refine ⟨by decide, by decide, h0, hbig, ?_⟩
  rw [h0, hbig]
  norm_num [Rat.mkRat_eq_div]

/-- C5 (amended): appending to the request text an intensifier word that does
not already occur in the lower-cased text never decreases the score `analyze`
assigns, and appending a diminisher word other than `occasionally` that does
not already occur never increases it.  The diminisher `occasionally` must be
excluded because it contains the MEDIUM-tier keyword `occasional`, so appending
it can raise the very pattern score it multiplies down. -/
theorem C5_modifier_monotonicity_outside_keyword_overlap
    (dsc w now1 now2 : List Char) :
    (w ∈ intensifiers.map ModEntry.key →
      ¬ w <:+: lowerTxt dsc ++ [' '] →
      scoreOf (analyze (reqOf dsc) now1) ≤
        scoreOf (analyze (reqOf (dsc ++ ' ' :: w)) now2)) ∧
    (w ∈ diminishers.map ModEntry.key → w ≠ "occasionally".toList →
      ¬ w <:+: lowerTxt dsc ++ [' '] →
      scoreOf (analyze (reqOf (dsc ++ ' ' :: w)) now2) ≤
        scoreOf (analyze (reqOf dsc) now1)) := by
  constructor
  · intro hmem hnotin
    obtain ⟨hw, hsp, hprep, hlow⟩ := intKeyFacts w hmem
    rw [scoreOf_analyze, scoreOf_analyze, lowerTxt_extend dsc w hlow]
    exact round2_mono (rawScore_le_extend (lowerTxt dsc) w hw hsp hprep hnotin
      (intDimSafe w hmem))
  · intro hmem hne hnotin
    obtain ⟨hw, hsp, hprep, hlow⟩ := dimKeyFacts w hmem
    rw [scoreOf_analyze, scoreOf_analyze, lowerTxt_extend dsc w hlow]
    exact round2_mono (rawScore_le_restrict (lowerTxt dsc) w hw hsp hprep
      (dimSafePat w hmem hne) (dimIntSafe w hmem) (dimSysSafe w hmem)
      (dimScopeSafe w hmem) (dimUrgSafe w hmem))

/-- Witness for C5: appending the intensifier `urgent` to `hello` does not
lower the score, and appending the diminisher `minor` does not raise it. -/
theorem C5_witness :
    scoreOf (analyze (reqOf "hello".toList) []) ≤
      scoreOf (analyze (reqOf ("hello".toList ++ ' ' :: "urgent".toList)) []) ∧
    scoreOf (analyze (reqOf ("hello".toList ++ ' ' :: "minor".toList)) []) ≤
      scoreOf (analyze (reqOf "hello".toList) []) :=
  ⟨(C5_modifier_monotonicity_outside_keyword_overlap "hello".toList
      "urgent".toList [] []).1 (by decide) (by decide),
   (C5_modifier_monotonicity_outside_keyword_overlap "hello".toList
      "minor".toList [] []).2 (by decide) (by decide) (by decide)⟩

end Scorer
